import Mathlib

/-!
Shallow embedding of the vipune memory store core (Rust) and proofs about it.

Modelling conventions:
* Rust `usize`/`i64` quantities are modelled as `Nat`/`Int`.
* `f32` values are modelled either at the bit level (a `Nat` below `2 ^ 32`,
  used by the byte codec, which is a pure bit shuffle in the source) or at the
  value level (`F32` below, with explicit NaN and infinity cases and exact
  rational magnitudes), with `f32FromBits` the exact IEEE-754 binary32
  interpretation connecting the two.
* `f64` arithmetic on in-range values is modelled exactly: sums and products of
  rationals stay rational, and a cosine-similarity score `dot / sqrt nrm` is
  carried as the pair `SimScore` of its exact rational numerator `dot` and the
  exact rational radicand `nrm`, with `SimScore.toReal` its real value.
-/

namespace Vipune

/-! ## sqlite module: error type (src/sqlite/mod.rs) -/

/-- Error type of the sqlite module (enum `Error` in src/sqlite/mod.rs). -/
inductive SqError where
  | Sqlite (msg : String)
  | InvalidBlobSize (expected actual : Nat)
  | MismatchedDimensions (expected actual : Nat)
  | EmptyVector
  | InvalidEmbedding (msg : String)
  | InvalidLimit (msg : String)
deriving DecidableEq, Repr

/-- Crate-level error type (enum `Error` in src/errors.rs); only the variants
reachable from the modelled code are included. -/
inductive Error where
  | Config (msg : String)
  | InvalidInput (msg : String)
  | EmptyInput
  | InputTooLong (max_length actual_length : Nat)
  | InvalidTimestamp (id timestamp err : String)
  | NotFound (id : String)
  | SqliteModule (msg : String)
  | Validation (msg : String)
deriving DecidableEq, Repr

/-! ## Vector codec (src/sqlite/embedding.rs), bit level

`vec_to_blob` and `blob_to_vec` move the raw bits of each `f32` to and from
little-endian bytes (`f32::to_le_bytes` / `f32::from_le_bytes`); they never
interpret the float value.  They are therefore modelled on the 32-bit
patterns themselves: a vector component is a `Nat` below `2 ^ 32` and a blob
byte is a `Nat` below `256`. -/

def EMBEDDING_DIMS : Nat := 384

def EMBEDDING_BLOB_SIZE : Nat := EMBEDDING_DIMS * 4

/-- `f32::to_le_bytes`: the four little-endian bytes of a 32-bit pattern. -/
def toLeBytes (x : Nat) : List Nat :=
  [x % 256, x / 256 % 256, x / 65536 % 256, x / 16777216 % 256]

/-- `f32::from_le_bytes`: reassemble a 32-bit pattern from four bytes. -/
def fromLeBytes (b0 b1 b2 b3 : Nat) : Nat :=
  b0 + 256 * b1 + 65536 * b2 + 16777216 * b3

/-- `vec_to_blob` (src/sqlite/embedding.rs): length check, then each
component's four little-endian bytes, concatenated. -/
def vec_to_blob (vec : List Nat) : Except SqError (List Nat) :=
  if vec.length ≠ EMBEDDING_DIMS then
    .error (.MismatchedDimensions EMBEDDING_DIMS vec.length)
  else
    .ok (vec.flatMap toLeBytes)

/-- The `chunks_exact(4)` + `from_le_bytes` loop of `blob_to_vec`:
each exact 4-byte chunk becomes one 32-bit pattern (a trailing chunk of
fewer than 4 bytes is dropped, as by `chunks_exact`). -/
def chunksToWords : List Nat → List Nat
  | b0 :: b1 :: b2 :: b3 :: rest => fromLeBytes b0 b1 b2 b3 :: chunksToWords rest
  | _ => []

/-- `blob_to_vec` (src/sqlite/embedding.rs): size check, then decode each
4-byte little-endian chunk. -/
def blob_to_vec (blob : List Nat) : Except SqError (List Nat) :=
  if blob.length ≠ EMBEDDING_BLOB_SIZE then
    .error (.InvalidBlobSize EMBEDDING_BLOB_SIZE blob.length)
  else
    .ok (chunksToWords blob)

/-! ## Limit validation (src/sqlite/search.rs and src/memory/store.rs) -/

def MAX_SEARCH_LIMIT : Nat := 10000

/-- `i64::MAX`, used by the sqlite-side limit guard. -/
def I64_MAX : Nat := 9223372036854775807

/-- `validate_limit` (src/sqlite/search.rs). -/
def validate_limit (limit : Nat) : Except SqError Unit :=
  if limit = 0 then
    .error (.InvalidLimit "Limit must be greater than 0")
  else if limit > I64_MAX ∨ limit > MAX_SEARCH_LIMIT then
    .error (.InvalidLimit ("Limit " ++ toString limit ++ " exceeds maximum allowed (10000)"))
  else
    .ok ()

/-- `validate_limit` (src/memory/store.rs); same bounds, crate-level error. -/
def store_validate_limit (limit : Nat) : Except Error Unit :=
  if limit = 0 then
    .error (.InvalidInput "Limit must be greater than 0")
  else if limit > MAX_SEARCH_LIMIT then
    .error (.InvalidInput ("Limit " ++ toString limit ++ " exceeds maximum allowed (10000)"))
  else
    .ok ()

/-! ## Input-length validation (src/memory/store.rs) -/

def MAX_INPUT_LENGTH : Nat := 100000

/-- The Unicode `White_Space` code points, the set recognised by Rust's
`char::is_whitespace` (used by `str::trim`). -/
def rustIsWhitespace (c : Char) : Bool :=
  c.val = 0x09 ∨ c.val = 0x0A ∨ c.val = 0x0B ∨ c.val = 0x0C ∨ c.val = 0x0D ∨
  c.val = 0x20 ∨ c.val = 0x85 ∨ c.val = 0xA0 ∨ c.val = 0x1680 ∨
  (0x2000 ≤ c.val ∧ c.val ≤ 0x200A) ∨ c.val = 0x2028 ∨ c.val = 0x2029 ∨
  c.val = 0x202F ∨ c.val = 0x205F ∨ c.val = 0x3000

/-- Rust `str::trim` on the character list of a string: drop Unicode
whitespace from both ends. -/
def rustTrimData (l : List Char) : List Char :=
  ((l.dropWhile rustIsWhitespace).reverse.dropWhile rustIsWhitespace).reverse

/-- Rust `str::len`: the length of the string in UTF-8 **bytes**. -/
def rustByteLen (s : String) : Nat := (s.data.map Char.utf8Size).sum

/-- `MemoryStore::validate_input_length` (src/memory/store.rs).
Note the source checks `text.trim().is_empty()` but `text.len()` — i.e. the
byte length of the *untrimmed* input — against `MAX_INPUT_LENGTH`. -/
def validate_input_length (text : String) : Except Error Unit :=
  if (rustTrimData text.data).isEmpty then
    .error .EmptyInput
  else if rustByteLen text > MAX_INPUT_LENGTH then
    .error (.InputTooLong MAX_INPUT_LENGTH (rustByteLen text))
  else
    .ok ()

/-! ## Float values and cosine similarity (src/sqlite/embedding.rs)

An `f32` value is NaN, an infinity, or a finite number; finite `f32`/`f64`
values and the products and sums the source forms from them are modelled as
exact rationals. -/

/-- Value-level model of an `f32`. -/
inductive F32 where
  | nan
  | inf (neg : Bool)
  | finite (val : ℚ)
deriving DecidableEq, Repr

/-- `f32::is_nan`. -/
def F32.isNan : F32 → Bool
  | .nan => true
  | _ => false

/-- `f32::is_infinite`. -/
def F32.isInfinite : F32 → Bool
  | .inf _ => true
  | _ => false

/-- The rational value of a finite `f32` (the `x as f64` cast, which is
exact); only consulted after the NaN/infinity guard in `cosine_similarity`. -/
def F32.toQ : F32 → ℚ
  | .finite v => v
  | _ => 0

/-- Exact IEEE-754 binary32 interpretation of a 32-bit pattern
(`f32::from_le_bytes` output as a value). -/
def f32FromBits (n : Nat) : F32 :=
  let e : Nat := n / 2 ^ 23 % 256
  let m : Nat := n % 2 ^ 23
  let neg : Bool := n / 2 ^ 31 % 2 == 1
  if e = 255 then (if m = 0 then .inf neg else .nan)
  else
    let mag : ℚ := if e = 0 then (m : ℚ) / 2 ^ 149 else ((2 ^ 23 + m : Nat) : ℚ) * 2 ^ e / 2 ^ 150
    .finite (if neg then -mag else mag)

/-- The dot product `Σ (x as f64) * (y as f64)` over the zipped vectors. -/
def dotQ (a b : List F32) : ℚ := (List.zipWith (fun x y => x.toQ * y.toQ) a b).sum

/-- The squared L2 norm `Σ (x as f64)^2` of a vector. -/
def normSq (a : List F32) : ℚ := (a.map (fun x => x.toQ ^ 2)).sum

/-- An `f64` similarity score, carried in exact form: the value is
`dot / Real.sqrt nrm`.  Scores that are exactly rational use `nrm = 1`. -/
structure SimScore where
  dot : ℚ
  nrm : ℚ
deriving DecidableEq, Repr

/-- The real value of a `SimScore`. -/
noncomputable def SimScore.toReal (s : SimScore) : ℝ := (s.dot : ℝ) / Real.sqrt (s.nrm : ℝ)

/-- `cosine_similarity` (src/sqlite/embedding.rs).  The source's zero-norm
test `norm_a == 0.0 || norm_b == 0.0` compares `sqrt(Σ x²)` with zero, which
holds exactly when `Σ x² = 0` (squares of finite `f32` values are at least
`2^-298` when nonzero, so the `f64` sum cannot underflow to zero); the model
tests the radicand directly.  In the success case the source returns
`dot / (norm_a * norm_b)`, i.e. the `SimScore` with numerator `dot` and
radicand `normSq a * normSq b`. -/
def cosine_similarity (a b : List F32) : Except SqError SimScore :=
  if a.isEmpty || b.isEmpty then .error .EmptyVector
  else if a.length ≠ b.length then .error (.MismatchedDimensions a.length b.length)
  else if a.any (fun x => x.isNan || x.isInfinite) || b.any (fun x => x.isNan || x.isInfinite) then
    .error (.InvalidEmbedding "Vector contains NaN or infinite values")
  else if normSq a = 0 ∨ normSq b = 0 then .ok ⟨0, 1⟩
  else .ok ⟨dotQ a b, normSq a * normSq b⟩

/-- Decidable comparison of two scores `x.dot / √x.nrm ≤ y.dot / √y.nrm`,
by sign analysis and squaring; agrees with the real comparison whenever both
radicands are positive (`SimScore.leB_iff_toReal` below). -/
def SimScore.leB (x y : SimScore) : Bool :=
  if x.dot < 0 ∧ 0 ≤ y.dot then true
  else if 0 ≤ x.dot ∧ 0 ≤ y.dot then x.dot ^ 2 * y.nrm ≤ y.dot ^ 2 * x.nrm
  else if x.dot < 0 ∧ y.dot < 0 then y.dot ^ 2 * x.nrm ≤ x.dot ^ 2 * y.nrm
  else false

/-- Decidable form of the f64 comparison `score >= threshold` used by
`find_similar`; the threshold `t` is an exact rational. -/
def SimScore.geB (x : SimScore) (t : ℚ) : Bool := SimScore.leB ⟨t, 1⟩ x

/-! ## Temporal decay (src/temporal.rs) -/

/-- `DecayFunction` (src/temporal.rs). -/
inductive DecayFunction where
  | Exponential
  | Linear
deriving DecidableEq, Repr

/-- `DecayConfig` (src/temporal.rs); the `f64` parameters are exact
rationals. -/
structure DecayConfig where
  function : DecayFunction
  lambda : ℚ
  offset_days : ℚ
deriving DecidableEq, Repr

/-- `Default for DecayConfig`: exponential, λ = 1e-6, no offset. -/
def DecayConfig.defaultConfig : DecayConfig := ⟨.Exponential, 1 / 1000000, 0⟩

/-- The function-specific part of `DecayConfig::validate`. -/
def DecayConfig.validateFunction (c : DecayConfig) : Except String Unit :=
  match c.function with
  | .Exponential =>
    if c.lambda > 1 / 1000 then .error "Exponential decay lambda is too large (max: 1e-3)"
    else if c.lambda < 1 / 10000000000 then .error "Exponential decay lambda is too small (min: 1e-10)"
    else .ok ()
  | .Linear =>
    if c.lambda > 100 then .error "Linear decay lambda is too large (max: 100.0)"
    else if c.lambda < 1 / 1000000 then .error "Linear decay lambda is too small to be useful (min: 1e-6)"
    else .ok ()

/-- `DecayConfig::validate` (src/temporal.rs). -/
def DecayConfig.validate (c : DecayConfig) : Except String Unit :=
  if c.lambda ≤ 0 then .error "Invalid lambda (must be positive)"
  else match c.validateFunction with
  | .error e => .error e
  | .ok _ =>
    if c.offset_days < 0 then .error "Invalid offset_days (must be >= 0)"
    else .ok ()

/-- Value-level model of an `f64` (for the age guard in `calculate_decay`). -/
inductive F64 where
  | nan
  | inf (neg : Bool)
  | finite (val : ℚ)
deriving DecidableEq, Repr

/-- `DecayConfig::calculate_decay` (src/temporal.rs), as a function of the
`f64` age in seconds — in the source
`now.signed_duration_since(created_at).num_seconds().max(0) as f64`, so for a
record created at time `created_at` the argument is
`.finite (max (now - created_at) 0)`.  The source's guard for a NaN or
infinite age is kept (it returns decay 0), even though an `i64`-derived age
is always finite.  `exp` over in-range arguments is `Real.exp`; the source
clamps the exponent to avoid `f64` overflow/underflow exactly as modelled. -/
noncomputable def DecayConfig.calculate_decay (c : DecayConfig) (age_seconds : F64) : ℝ :=
  match age_seconds with
  | .nan => 0
  | .inf _ => 0
  | .finite a =>
    let offset_seconds : ℚ := c.offset_days * 86400
    let effective_age : ℚ := max (a - offset_seconds) 0
    match c.function with
    | .Exponential =>
      let exponent : ℚ := -c.lambda * effective_age
      if exponent < -700 then 0
      else if exponent > 700 then 1
      else Real.exp (exponent : ℝ)
    | .Linear =>
      let decay_rate : ℚ := c.lambda * effective_age / 86400
      ((min (max ((1 : ℚ) - decay_rate) 0) 1 : ℚ) : ℝ)

/-! ## Memory record (src/sqlite/mod.rs) -/

/-- `Memory` (src/sqlite/mod.rs).  The `f64` similarity score is carried as a
`SimScore`. -/
structure Memory where
  id : String
  project_id : String
  content : String
  metadata : Option String
  similarity : Option SimScore
  created_at : String
  updated_at : String
deriving DecidableEq, Repr

/-! ## Reciprocal Rank Fusion (src/rrf.rs) -/

/-- `RrfConfig` (src/rrf.rs). -/
structure RrfConfig where
  k : ℚ
deriving DecidableEq, Repr

/-- `Default for RrfConfig`: k = 25.0. -/
def RrfConfig.defaultConfig : RrfConfig := ⟨25⟩

/-- One iteration of the inner loop of `rrf_fusion`: fold the entry `m`, at
0-based `rank` within its list, into the accumulated map.  The
`HashMap<String, (Memory, f64)>` is modelled as an association list in
first-insertion order; the final sort is by a total order (score descending,
then id ascending) on entries whose ids are pairwise distinct, so the map's
unspecified iteration order cannot affect the output. -/
def rrfStep (k : ℚ) (acc : List (String × Memory × ℚ)) (rank : Nat) (m : Memory) :
    List (String × Memory × ℚ) :=
  let rrf_score : ℚ := 1 / (k + ((rank + 1 : Nat) : ℚ))
  if (acc.find? (fun e => e.1 == m.id)).isSome then
    acc.map (fun e => if e.1 == m.id then (e.1, e.2.1, e.2.2 + rrf_score) else e)
  else
    acc ++ [(m.id, { m with similarity := some ⟨rrf_score, 1⟩ }, rrf_score)]

/-- The outer loop of `rrf_fusion` over one result list, with 1-based ranks
from `enumerate`. -/
def rrfList (k : ℚ) (acc : List (String × Memory × ℚ)) (l : List Memory) :
    List (String × Memory × ℚ) :=
  l.enum.foldl (fun acc p => rrfStep k acc p.1 p.2) acc

/-- The comparator of the final `sort_by`: fused score descending, ties
broken by id ascending. -/
def rrfLe (e1 e2 : String × Memory × ℚ) : Bool :=
  e2.2.2 < e1.2.2 || (e1.2.2 == e2.2.2 && decide (e1.1 ≤ e2.1))

/-- `rrf_fusion` (src/rrf.rs). -/
def rrf_fusion (result_lists : List (List Memory)) (config : Option RrfConfig) :
    Except Error (List Memory) :=
  let config := config.getD RrfConfig.defaultConfig
  if result_lists.isEmpty then .ok []
  else
    let fused_results := result_lists.foldl (fun acc l => rrfList config.k acc l) []
    let fused_vec := fused_results.mergeSort rrfLe
    .ok (fused_vec.map (fun e => { e.2.1 with similarity := some ⟨e.2.2, 1⟩ }))

/-! ## SQLite database model (src/sqlite/mod.rs: schema, triggers, CRUD)

The `memories` table and its FTS5 shadow are lists of rows; the FTS
triggers of `create_schema` are inlined into each mutating operation, which
is exactly when SQLite fires them (same transaction as the triggering
statement). -/

/-- A row of the `memories` table; `embedding` is the stored BLOB (bytes). -/
structure MemRow where
  rowid : Nat
  id : String
  project_id : String
  content : String
  embedding : List Nat
  metadata : Option String
  created_at : String
  updated_at : String
deriving DecidableEq, Repr

/-- A row of the `memories_fts` FTS5 table. -/
structure FtsRow where
  rowid : Nat
  content : String
  project_id : String
deriving DecidableEq, Repr

/-- The FTS row shadowing a record row (what the triggers insert). -/
def MemRow.toFts (m : MemRow) : FtsRow := ⟨m.rowid, m.content, m.project_id⟩

/-- Database state: both tables, the FTS schema-version marker (whether
`memories_fts` has the `project_id` column), and the next fresh rowid. -/
structure Database where
  memories : List MemRow
  memories_fts : List FtsRow
  ftsHasProjectId : Bool
  nextRowid : Nat
deriving DecidableEq, Repr

/-- `create_schema` on a fresh database: both tables exist and are empty and
the FTS table has the current schema. -/
def Database.createDb : Database := ⟨[], [], true, 1⟩

/-- `Database::insert` plus the `memories_fts_insert` trigger.  The UUID
`newId` and the timestamp `now` generated inside the source function are
passed explicitly.  A duplicate primary key makes the INSERT fail with no
change. -/
def Database.insert (db : Database) (newId now project_id content : String)
    (embedding : List Nat) (metadata : Option String) : Except SqError (String × Database) :=
  match vec_to_blob embedding with
  | .error e => .error e
  | .ok blob =>
    if db.memories.any (fun r => r.id == newId) then
      .error (.Sqlite "UNIQUE constraint failed: memories.id")
    else
      let row : MemRow := ⟨db.nextRowid, newId, project_id, content, blob, metadata, now, now⟩
      .ok (newId, { db with
        memories := db.memories ++ [row],
        memories_fts := db.memories_fts ++ [row.toFts],
        nextRowid := db.nextRowid + 1 })

/-- `Database::get`. -/
def Database.get (db : Database) (id : String) : Except SqError (Option Memory) :=
  .ok ((db.memories.find? (fun r => r.id == id)).map (fun r =>
    ⟨r.id, r.project_id, r.content, r.metadata, none, r.created_at, r.updated_at⟩))

/-- `Database::list`: validate the limit, then the project's rows ordered by
`created_at` descending (TEXT collation), truncated to the limit. -/
def Database.list (db : Database) (project_id : String) (limit : Nat) :
    Except SqError (List Memory) :=
  match validate_limit limit with
  | .error e => .error e
  | .ok _ =>
    let rows := (db.memories.filter (fun r => r.project_id == project_id)).mergeSort
      (fun a b => decide (b.created_at ≤ a.created_at))
    .ok ((rows.take limit).map (fun r =>
      ⟨r.id, r.project_id, r.content, r.metadata, none, r.created_at, r.updated_at⟩))

/-- `Database::update` plus the `memories_fts_update` trigger (delete the old
FTS row, insert the new one).  The UPDATE matches at most one row (`id` is
the primary key); matching zero rows is an error with no change. -/
def Database.update (db : Database) (id content : String) (embedding : List Nat) (now : String) :
    Except SqError Database :=
  match vec_to_blob embedding with
  | .error e => .error e
  | .ok blob =>
    match db.memories.find? (fun r => r.id == id) with
    | none => .error (.Sqlite ("No memory found with id: " ++ id))
    | some old =>
      .ok { db with
        memories := db.memories.map (fun r =>
          if r.id == id then { r with content := content, embedding := blob, updated_at := now } else r),
        memories_fts := (db.memories_fts.filter (fun f => f.rowid != old.rowid)) ++
          [⟨old.rowid, content, old.project_id⟩] }

/-- `Database::delete` plus the `memories_fts_delete` trigger; returns
whether a row was deleted, and the new state. -/
def Database.delete (db : Database) (id : String) : Except SqError (Bool × Database) :=
  let removed := db.memories.filter (fun r => r.id == id)
  .ok (decide (removed.length > 0),
    { db with
      memories := db.memories.filter (fun r => !(r.id == id)),
      memories_fts := db.memories_fts.filter (fun f => removed.all (fun r => r.rowid != f.rowid)) })

/-- `Database::initialize_fts` (src/sqlite/fts.rs).  The FTS table always
exists here (`create_schema` creates it), so the live branch is the
`project_id`-column migration: rebuild the FTS table from `memories` inside
one transaction, compare row counts, and roll back — returning a consistency
error and no new state — if they differ. -/
def Database.initialize_fts (db : Database) : Except SqError Database :=
  if db.ftsHasProjectId then .ok db
  else
    let memory_count := db.memories.length
    let newFts := db.memories.map MemRow.toFts
    let fts_count := newFts.length
    if fts_count ≠ memory_count then
      .error (.Sqlite "FTS5 migration incomplete")
    else
      .ok { db with memories_fts := newFts, ftsHasProjectId := true }

/-- The body of the row loop of `Database::search`: decode the stored blob,
score it against the query; either step's error aborts the scan. -/
def scoreRow (query_embedding : List Nat) (r : MemRow) : Except SqError Memory :=
  match blob_to_vec r.embedding with
  | .error e => .error e
  | .ok stored =>
    match cosine_similarity (query_embedding.map f32FromBits) (stored.map f32FromBits) with
    | .error e => .error e
    | .ok sim =>
      .ok ⟨r.id, r.project_id, r.content, r.metadata, some sim, r.created_at, r.updated_at⟩

/-- `Database::search` (src/sqlite/search.rs): validate the limit, scan every
row of the project, decode its blob and score it against the query — any
row-level codec error aborts the whole scan — then sort by similarity
descending and truncate.  The query, a `&[f32]`, is given as bit patterns
and interpreted by `f32FromBits` at the similarity call. -/
def Database.search (db : Database) (project_id : String) (query_embedding : List Nat)
    (limit : Nat) : Except SqError (List Memory) :=
  match validate_limit limit with
  | .error e => .error e
  | .ok _ =>
    let rows := db.memories.filter (fun r => r.project_id == project_id)
    match rows.mapM (scoreRow query_embedding) with
    | .error e => .error e
    | .ok memories =>
      let sorted := memories.mergeSort (fun a b =>
        SimScore.leB ((b.similarity).getD ⟨0, 1⟩) ((a.similarity).getD ⟨0, 1⟩))
      .ok (sorted.take limit)

/-- `Database::find_similar` (src/sqlite/search.rs): search with the maximum
limit, keep scores `>= threshold`. -/
def Database.find_similar (db : Database) (project_id : String) (embedding : List Nat)
    (threshold : ℚ) : Except SqError (List Memory) :=
  match db.search project_id embedding MAX_SEARCH_LIMIT with
  | .error e => .error e
  | .ok all_results => .ok (all_results.filter (fun m => ((m.similarity).getD ⟨0, 1⟩).geB threshold))

/-! ## Operation sequences over the database (for the synchronization
invariant) -/

/-- A record-store mutation or index-maintenance call. -/
inductive DbOp where
  | insertOp (newId now project_id content : String) (embedding : List Nat) (metadata : Option String)
  | updateOp (id content : String) (embedding : List Nat) (now : String)
  | deleteOp (id : String)
  | initFts
deriving DecidableEq, Repr

/-- Run one operation; a failed operation leaves the database unchanged:
every erroring path in the source fails before its SQL executes, matches
zero rows, or rolls its transaction back. -/
def Database.stepOp (db : Database) (op : DbOp) : Database :=
  match op with
  | .insertOp newId now project content embedding metadata =>
    match db.insert newId now project content embedding metadata with
    | .ok (_, db2) => db2
    | .error _ => db
  | .updateOp id content embedding now =>
    match db.update id content embedding now with
    | .ok db2 => db2
    | .error _ => db
  | .deleteOp id =>
    match db.delete id with
    | .ok (_, db2) => db2
    | .error _ => db
  | .initFts =>
    match db.initialize_fts with
    | .ok db2 => db2
    | .error _ => db

/-- Well-formed, synchronized state: ids (the primary key) and rowids are
unique, rowids are below the fresh counter, and the FTS table holds exactly
one row for each record row — the shadow of that row. -/
def Database.wf (db : Database) : Prop :=
  (db.memories.map MemRow.id).Nodup ∧
  (db.memories.map MemRow.rowid).Nodup ∧
  (∀ r ∈ db.memories, r.rowid < db.nextRowid) ∧
  List.Perm db.memories_fts (db.memories.map MemRow.toFts)

/-! ## Orchestrator (src/memory/store.rs, src/memory/crud.rs) -/

/-- `ConflictMemory` (src/memory_types.rs). -/
structure ConflictMemory where
  id : String
  content : String
  similarity : SimScore
deriving DecidableEq, Repr

/-- `AddResult` (src/memory_types.rs). -/
inductive AddResult where
  | Added (id : String)
  | Conflicts (proposed : String) (conflicts : List ConflictMemory)
deriving DecidableEq, Repr

/-- The `Display` string of a sqlite-module error (src/sqlite/mod.rs). -/
def SqError.display : SqError → String
  | .Sqlite msg => "Database error: " ++ msg
  | .InvalidBlobSize expected actual =>
      "Invalid BLOB size: expected " ++ toString expected ++ " bytes, got " ++ toString actual ++ " bytes"
  | .MismatchedDimensions expected actual =>
      "Mismatched dimensions: expected " ++ toString expected ++ " dimensions, got " ++ toString actual ++ " dimensions"
  | .EmptyVector => "Cannot compute similarity with empty vector"
  | .InvalidEmbedding msg => "Invalid embedding: " ++ msg
  | .InvalidLimit msg => "Invalid limit: " ++ msg

/-- `From<sqlite::Error> for Error` (src/errors.rs): the display string is
inspected for the update-path not-found message. -/
def SqError.toCrate (e : SqError) : Error :=
  let s := e.display
  let parts := s.splitOn "No memory found with id: "
  if parts.length > 1 then
    .NotFound (String.mk (rustTrimData (parts.getD 1 "").data))
  else
    .SqliteModule s

/-- `MemoryStore` (src/memory/store.rs).  The ONNX embedding engine is an
external collaborator (spec §6) modelled as a pure oracle; a successful
`embed` call yields the resulting `f32` vector as bit patterns.
`similarity_threshold` is the configured conflict threshold. -/
structure MemoryStore where
  db : Database
  embed : String → List Nat
  similarity_threshold : ℚ

/-- `MemoryStore::add` (src/memory/crud.rs). -/
def MemoryStore.add (st : MemoryStore) (newId now project_id content : String)
    (metadata : Option String) : Except Error (String × MemoryStore) :=
  match validate_input_length content with
  | .error e => .error e
  | .ok _ =>
    let embedding := st.embed content
    match st.db.insert newId now project_id content embedding metadata with
    | .error e => .error e.toCrate
    | .ok (id, db2) => .ok (id, { st with db := db2 })

/-- `MemoryStore::add_with_conflict` (src/memory/crud.rs). -/
def MemoryStore.add_with_conflict (st : MemoryStore) (newId now project_id content : String)
    (metadata : Option String) (force : Bool) : Except Error (AddResult × MemoryStore) :=
  match validate_input_length content with
  | .error e => .error e
  | .ok _ =>
    if force then
      let embedding := st.embed content
      match st.db.insert newId now project_id content embedding metadata with
      | .error e => .error e.toCrate
      | .ok (id, db2) => .ok (.Added id, { st with db := db2 })
    else
      let embedding := st.embed content
      match st.db.find_similar project_id embedding st.similarity_threshold with
      | .error e => .error e.toCrate
      | .ok similars =>
        let conflicts := similars.map (fun m =>
          (⟨m.id, m.content, (m.similarity).getD ⟨0, 1⟩⟩ : ConflictMemory))
        if conflicts.isEmpty then
          match st.db.insert newId now project_id content embedding metadata with
          | .error e => .error e.toCrate
          | .ok (id, db2) => .ok (.Added id, { st with db := db2 })
        else
          .ok (.Conflicts content conflicts, st)

/-- `MemoryStore::list` (src/memory/crud.rs): inline limit validation, then
the database listing. -/
def MemoryStore.list (st : MemoryStore) (project_id : String) (limit : Nat) :
    Except Error (List Memory) :=
  if limit = 0 then .error (.InvalidInput "Limit must be greater than 0")
  else if limit > MAX_SEARCH_LIMIT then
    .error (.InvalidInput ("Limit " ++ toString limit ++ " exceeds maximum allowed (10000)"))
  else
    match st.db.list project_id limit with
    | .error e => .error e.toCrate
    | .ok l => .ok l

/-- `MemoryStore::update` (src/memory/crud.rs). -/
def MemoryStore.update (st : MemoryStore) (now id content : String) :
    Except Error MemoryStore :=
  match validate_input_length content with
  | .error e => .error e
  | .ok _ =>
    let embedding := st.embed content
    match st.db.update id content embedding now with
    | .error e => .error e.toCrate
    | .ok db2 => .ok { st with db := db2 }

/-- `MemoryStore::search` (src/memory/search.rs) at recency weight 0, the
pure-semantic path: with weight 0 the source's `validate_recency_weight(0.0)`
passes (0.0 lies in `0.0..=1.0`) and the decay re-scoring block guarded by
`recency_weight > 0.0` is skipped entirely, so neither needs modelling.  The
limit guards run first; then the query is trimmed (`let query = query.trim()`)
and `validate_input_length` runs on the *trimmed* query — unlike the
add/update path, which validates the untrimmed content — and only then is
the trimmed query embedded and the database scanned.  `search_hybrid`
validates its query through the same two trimmed-query lines. -/
def MemoryStore.search (st : MemoryStore) (project_id query : String) (limit : Nat) :
    Except Error (List Memory) :=
  if limit = 0 then .error (.InvalidInput "Limit must be greater than 0")
  else if limit > MAX_SEARCH_LIMIT then
    .error (.InvalidInput ("Limit " ++ toString limit ++ " exceeds maximum allowed (10000)"))
  else
    let query := String.mk (rustTrimData query.data)
    match validate_input_length query with
    | .error e => .error e
    | .ok _ =>
      match st.db.search project_id (st.embed query) limit with
      | .error e => .error e.toCrate
      | .ok l => .ok l

/-- The codec/embedding error class of the error taxonomy (spec §7): blob
size, dimension and NaN/Inf errors, as opposed to engine or limit errors. -/
def SqError.isCodec : SqError → Bool
  | .InvalidBlobSize _ _ => true
  | .MismatchedDimensions _ _ => true
  | .EmptyVector => true
  | .InvalidEmbedding _ => true
  | _ => false

/-- A stored row whose embedding blob decodes to a clean vector: right blob
size and no NaN/infinite component.  Negation of "corrupted" in spec §4.4. -/
def MemRow.healthy (r : MemRow) : Prop :=
  r.embedding.length = EMBEDDING_BLOB_SIZE ∧
  ∀ x ∈ (chunksToWords r.embedding).map f32FromBits, ¬(x.isNan ∨ x.isInfinite)

/-- A query embedding of the right dimension with no NaN/infinite component
(what the embedding provider contract promises, spec §6). -/
def validQuery (q : List Nat) : Prop :=
  q.length = EMBEDDING_DIMS ∧ ∀ x ∈ q.map f32FromBits, ¬(x.isNan ∨ x.isInfinite)

/-- Spec-side view of the fused-results map: the score stored for an id
(0 when the id is absent). -/
def scoreOf (acc : List (String × Memory × ℚ)) (id : String) : ℚ :=
  match acc.find? (fun e => e.1 == id) with
  | some e => e.2.2
  | none => 0

/-- The contribution one result list makes to an id's fused score, with the
list's entries ranked from `n + 1` upwards (so `contribFrom k 0 l id` ranks
the list `1, 2, …` exactly as `enumerate` does): each occurrence of the id
at 0-based position `j` contributes `1 / (k + (n + j + 1))`.  When the
list's ids are distinct this is `1 / (k + rank)` for the memory's unique
1-based rank, and 0 when the id is absent. -/
def contribFrom (k : ℚ) (n : Nat) (l : List Memory) (id : String) : ℚ :=
  match l with
  | [] => 0
  | m :: t =>
    (if m.id == id then 1 / (k + ((n + 1 : Nat) : ℚ)) else 0) + contribFrom k (n + 1) t id

/-- The claim's fused score: the sum over all input lists of the per-list
rank contribution. -/
def rrfSpecScore (k : ℚ) (lists : List (List Memory)) (id : String) : ℚ :=
  (lists.map (fun l => contribFrom k 0 l id)).sum

/-- A concrete memory record used when checking the fused-score formula on
the paradigm case of the RRF claim (rank 1 in three lists). -/
def memA : Memory :=
  ⟨"a", "p", "c", none, none, "t", "t"⟩

/-- The similarity score `Database::search` computes for a healthy row
(the value `cosine_similarity` returns once its guards pass). -/
def rowScore (query : List Nat) (r : MemRow) : SimScore :=
  if normSq (query.map f32FromBits) = 0 ∨
      normSq ((chunksToWords r.embedding).map f32FromBits) = 0 then ⟨0, 1⟩
  else
    ⟨dotQ (query.map f32FromBits) ((chunksToWords r.embedding).map f32FromBits),
      normSq (query.map f32FromBits) * normSq ((chunksToWords r.embedding).map f32FromBits)⟩

/-- The `Memory` value `Database::search` produces for a healthy row. -/
def rowMemory (query : List Nat) (r : MemRow) : Memory :=
  ⟨r.id, r.project_id, r.content, r.metadata, some (rowScore query r), r.created_at,
    r.updated_at⟩

/-- Decidable equality of results, used to evaluate the model on concrete
inputs. -/
instance exceptDecEq {ε α : Type} [DecidableEq ε] [DecidableEq α] :
    DecidableEq (Except ε α) := fun a b =>
  match a, b with
  | .error e1, .error e2 =>
    if h : e1 = e2 then isTrue (by rw [h]) else
      isFalse (by intro hc; cases hc; exact h rfl)
  | .ok x, .ok y =>
    if h : x = y then isTrue (by rw [h]) else
      isFalse (by intro hc; cases hc; exact h rfl)
  | .error _, .ok _ => isFalse (by intro hc; cases hc)
  | .ok _, .error _ => isFalse (by intro hc; cases hc)

/-! # Theorems -/

/-! ## Codec (claim C3) -/

theorem fromLeBytes_toLeBytes {x : Nat} (hx : x < 2 ^ 32) :
    fromLeBytes (x % 256) (x / 256 % 256) (x / 65536 % 256) (x / 16777216 % 256) = x := by
  unfold fromLeBytes
  omega

theorem chunksToWords_flatMap (v : List Nat) (h : ∀ x ∈ v, x < 2 ^ 32) :
    chunksToWords (v.flatMap toLeBytes) = v := by
  induction v with
  | nil => rfl
  | cons x t ih =>
    have hx : x < 2 ^ 32 := h x (List.mem_cons_self x t)
    have ht : ∀ y ∈ t, y < 2 ^ 32 := fun y hy => h y (List.mem_cons_of_mem x hy)
    have hstep : (x :: t).flatMap toLeBytes =
        x % 256 :: x / 256 % 256 :: x / 65536 % 256 :: x / 16777216 % 256 :: t.flatMap toLeBytes := by
      simp [List.flatMap_cons, toLeBytes]
    rw [hstep, chunksToWords, fromLeBytes_toLeBytes hx, ih ht]

theorem length_flatMap_toLeBytes (v : List Nat) :
    (v.flatMap toLeBytes).length = 4 * v.length := by
  induction v with
  | nil => rfl
  | cons x t ih =>
    simp only [List.flatMap_cons, List.length_append, List.length_cons, ih, toLeBytes]
    simp
    omega

/-- Claim C3: for a 384-component vector, decoding the encoded blob gives the
vector back exactly; encoding any vector of a different length fails with the
dimension-mismatch error, and decoding any blob whose byte length is not
384 · 4 = 1536 fails with the blob-size error. -/
theorem c3_codec_roundtrip (v blob : List Nat) (hv : ∀ x ∈ v, x < 2 ^ 32) :
    (v.length = EMBEDDING_DIMS →
      vec_to_blob v = .ok (v.flatMap toLeBytes) ∧
      blob_to_vec (v.flatMap toLeBytes) = .ok v) ∧
    (v.length ≠ EMBEDDING_DIMS →
      vec_to_blob v = .error (.MismatchedDimensions EMBEDDING_DIMS v.length)) ∧
    (blob.length ≠ EMBEDDING_BLOB_SIZE →
      blob_to_vec blob = .error (.InvalidBlobSize EMBEDDING_BLOB_SIZE blob.length)) := by
  refine ⟨fun hlen => ⟨?_, ?_⟩, fun hlen => ?_, fun hlen => ?_⟩
  · unfold vec_to_blob
    rw [if_neg (by omega)]
  · unfold blob_to_vec
    rw [if_neg (by rw [length_flatMap_toLeBytes, hlen]; decide),
      chunksToWords_flatMap v hv]
  · unfold vec_to_blob
    rw [if_pos hlen]
  · unfold blob_to_vec
    rw [if_pos hlen]

theorem c3_codec_roundtrip_witness :
    vec_to_blob (List.replicate 384 1065353216) =
      .ok ((List.replicate 384 1065353216).flatMap toLeBytes) ∧
    blob_to_vec ((List.replicate 384 1065353216).flatMap toLeBytes) =
      .ok (List.replicate 384 1065353216) ∧
    vec_to_blob (List.replicate 383 1065353216) =
      .error (.MismatchedDimensions 384 383) ∧
    blob_to_vec (List.replicate 1500 0) = .error (.InvalidBlobSize 1536 1500) := by
  have hv : ∀ x ∈ List.replicate 384 (1065353216 : Nat), x < 2 ^ 32 := by
    intro x hx
    rw [List.eq_of_mem_replicate hx]
    decide
  have h := c3_codec_roundtrip (List.replicate 384 1065353216) (List.replicate 1500 0) hv
  have h383 := c3_codec_roundtrip (List.replicate 383 1065353216) (List.replicate 1500 0)
    (by intro x hx; rw [List.eq_of_mem_replicate hx]; decide)
  have hlen : (List.replicate 384 (1065353216 : Nat)).length = EMBEDDING_DIMS :=
    List.length_replicate 384 1065353216
  refine ⟨(h.1 hlen).1, (h.1 hlen).2, ?_, ?_⟩
  · have h2 := h383.2.1 (by rw [List.length_replicate]; decide)
    rw [List.length_replicate] at h2
    exact h2
  · have h2 := h.2.2 (by rw [List.length_replicate]; decide)
    rw [List.length_replicate] at h2
    exact h2

/-! ## Limit validation (claim C8) -/

/-- Claim C8: limit 0 and any limit above MAX_SEARCH_LIMIT (in particular
10001) fail validation in both limit validators, and they make the search,
list and store-list operations fail before any scan (for every database
state); limit = MAX_SEARCH_LIMIT = 10000 passes both validators. -/
theorem c8_limit_validation (limit : Nat) (db : Database) (st : MemoryStore)
    (project_id : String) (query : List Nat) :
    (limit = 0 ∨ limit > MAX_SEARCH_LIMIT →
      (∃ m, validate_limit limit = .error (.InvalidLimit m)) ∧
      (∃ m, store_validate_limit limit = .error (.InvalidInput m)) ∧
      (∃ m, db.search project_id query limit = .error (.InvalidLimit m)) ∧
      (∃ m, db.list project_id limit = .error (.InvalidLimit m)) ∧
      (∃ m, st.list project_id limit = .error (.InvalidInput m))) ∧
    validate_limit MAX_SEARCH_LIMIT = .ok () ∧
    store_validate_limit MAX_SEARCH_LIMIT = .ok () ∧
    (∃ m, validate_limit (MAX_SEARCH_LIMIT + 1) = .error (.InvalidLimit m)) ∧
    (∃ m, store_validate_limit (MAX_SEARCH_LIMIT + 1) = .error (.InvalidInput m)) := by
  refine ⟨fun h => ?_, rfl, rfl, ⟨_, rfl⟩, ⟨_, rfl⟩⟩
  have hval : ∃ m, validate_limit limit = .error (.InvalidLimit m) := by
    rcases h with h0 | hbig
    · subst h0
      exact ⟨_, rfl⟩
    · have heq : validate_limit limit =
          .error (.InvalidLimit ("Limit " ++ toString limit ++ " exceeds maximum allowed (10000)")) := by
        unfold validate_limit
        rw [if_neg (by omega), if_pos (Or.inr hbig)]
      exact ⟨_, heq⟩
  obtain ⟨m, hm⟩ := hval
  refine ⟨⟨m, hm⟩, ?_, ?_, ?_, ?_⟩
  · rcases h with h0 | hbig
    · subst h0
      exact ⟨_, rfl⟩
    · have heq : store_validate_limit limit =
          .error (.InvalidInput ("Limit " ++ toString limit ++ " exceeds maximum allowed (10000)")) := by
        unfold store_validate_limit
        rw [if_neg (by omega), if_pos hbig]
      exact ⟨_, heq⟩
  · refine ⟨m, ?_⟩
    unfold Database.search
    rw [hm]
  · refine ⟨m, ?_⟩
    unfold Database.list
    rw [hm]
  · rcases h with h0 | hbig
    · subst h0
      exact ⟨_, rfl⟩
    · have heq : st.list project_id limit =
          .error (.InvalidInput ("Limit " ++ toString limit ++ " exceeds maximum allowed (10000)")) := by
        unfold MemoryStore.list
        rw [if_neg (by omega), if_pos hbig]
      exact ⟨_, heq⟩

theorem c8_limit_validation_witness :
    (∃ m, validate_limit 0 = .error (.InvalidLimit m)) ∧
    (∃ m, validate_limit 10001 = .error (.InvalidLimit m)) ∧
    validate_limit 10000 = .ok () ∧
    (∃ m, (Database.createDb).search "p" [] 0 = .error (.InvalidLimit m)) := by
  have h0 := c8_limit_validation 0 Database.createDb ⟨Database.createDb, fun _ => [], 0⟩ "p" []
  have h1 := c8_limit_validation 10001 Database.createDb ⟨Database.createDb, fun _ => [], 0⟩ "p" []
  exact ⟨(h0.1 (Or.inl rfl)).1, (h1.1 (Or.inr (by decide))).1, h0.2.1,
    (h0.1 (Or.inl rfl)).2.2.1⟩

/-! ## Input-length validation (claim C9) -/

theorem dropWhile_ws_replicate (n : Nat) :
    List.dropWhile rustIsWhitespace (List.replicate n 'a') = List.replicate n 'a' := by
  cases n with
  | zero => rfl
  | succ m => rw [List.replicate_succ, List.dropWhile_cons_of_neg (by decide)]

theorem rustTrimData_space_replicate (n : Nat) :
    rustTrimData (' ' :: List.replicate n 'a') = List.replicate n 'a' := by
  unfold rustTrimData
  rw [List.dropWhile_cons_of_pos (by decide), dropWhile_ws_replicate,
    List.reverse_replicate, dropWhile_ws_replicate, List.reverse_replicate]

theorem rustByteLen_space_replicate (n : Nat) :
    rustByteLen (String.mk (' ' :: List.replicate n 'a')) = n + 1 := by
  unfold rustByteLen
  show ((' ' :: List.replicate n 'a').map Char.utf8Size).sum = n + 1
  rw [List.map_cons, List.map_replicate, List.sum_cons, List.sum_replicate]
  have h1 : (' ').utf8Size = 1 := rfl
  have h2 : ('a').utf8Size = 1 := rfl
  rw [h1, h2, smul_eq_mul, Nat.mul_one]
  omega

theorem rustTrimData_eq_rdropWhile (l : List Char) :
    rustTrimData l =
      List.rdropWhile rustIsWhitespace (l.dropWhile rustIsWhitespace) := rfl

theorem rustTrimData_dropWhile (l : List Char) :
    (rustTrimData l).dropWhile rustIsWhitespace = rustTrimData l := by
  cases ht : rustTrimData l with
  | nil => rfl
  | cons c t =>
    have hpre := List.rdropWhile_prefix rustIsWhitespace
      (l.dropWhile rustIsWhitespace)
    rw [← rustTrimData_eq_rdropWhile, ht] at hpre
    obtain ⟨s, hs⟩ := hpre
    have hh := List.head?_dropWhile_not rustIsWhitespace l
    rw [← hs] at hh
    have hc : rustIsWhitespace c = false := by simpa using hh
    simp [List.dropWhile_cons, hc]

/-- Rust `str::trim` is idempotent: trimming a trimmed string changes
nothing.  (The trimmed list starts and ends with a non-whitespace
character, if it is non-empty at all.) -/
theorem rustTrimData_idem (l : List Char) :
    rustTrimData (rustTrimData l) = rustTrimData l := by
  rw [rustTrimData_eq_rdropWhile (rustTrimData l), rustTrimData_dropWhile,
    rustTrimData_eq_rdropWhile l, List.rdropWhile_idempotent]

theorem rustTrimData_replicate (n : Nat) :
    rustTrimData (List.replicate n 'a') = List.replicate n 'a' := by
  unfold rustTrimData
  rw [dropWhile_ws_replicate, List.reverse_replicate, dropWhile_ws_replicate,
    List.reverse_replicate]

theorem rustByteLen_replicate (n : Nat) :
    rustByteLen (String.mk (List.replicate n 'a')) = n := by
  unfold rustByteLen
  show ((List.replicate n 'a').map Char.utf8Size).sum = n
  rw [List.map_replicate, List.sum_replicate]
  have h : ('a').utf8Size = 1 := rfl
  rw [h, smul_eq_mul, Nat.mul_one]

/-- `validate_input_length` succeeds exactly when the trimmed input is
non-empty and the UTF-8 byte length of the (untrimmed) argument is at most
MAX_INPUT_LENGTH. -/
theorem validate_input_length_ok_iff (s : String) :
    validate_input_length s = .ok () ↔
      rustTrimData s.data ≠ [] ∧ rustByteLen s ≤ MAX_INPUT_LENGTH := by
  unfold validate_input_length
  split_ifs with h1 h2
  · simp only [List.isEmpty_iff] at h1
    constructor
    · intro h
      exact absurd h (by simp)
    · rintro ⟨hne, -⟩
      exact absurd h1 hne
  · constructor
    · intro h
      exact absurd h (by simp)
    · rintro ⟨-, hle⟩
      omega
  · simp only [List.isEmpty_iff] at h1
    exact ⟨fun _ => ⟨h1, by omega⟩, fun _ => rfl⟩

/-- Claim C9 counterexample: the input made of one space followed by 100000
letters is, after trimming, non-empty and exactly MAX_INPUT_LENGTH
characters long — the claim says every operation accepts it — yet
`validate_input_length`, the gate of add/add_with_conflict/update, rejects
it, because there the length check runs on the byte length of the
*untrimmed* input; the search path, which trims the query first, accepts
the very same input, so no single acceptance condition covers both
paths. -/
theorem c9_counterexample :
    (rustTrimData (String.mk (' ' :: List.replicate MAX_INPUT_LENGTH 'a')).data).length
        = MAX_INPUT_LENGTH ∧
    rustTrimData (String.mk (' ' :: List.replicate MAX_INPUT_LENGTH 'a')).data ≠ [] ∧
    validate_input_length (String.mk (' ' :: List.replicate MAX_INPUT_LENGTH 'a')) =
      .error (.InputTooLong MAX_INPUT_LENGTH (MAX_INPUT_LENGTH + 1)) ∧
    validate_input_length (String.mk
        (rustTrimData (String.mk (' ' :: List.replicate MAX_INPUT_LENGTH 'a')).data)) =
      .ok () := by
  have hdata : (String.mk (' ' :: List.replicate MAX_INPUT_LENGTH 'a')).data
      = ' ' :: List.replicate MAX_INPUT_LENGTH 'a' := rfl
  have htrim := rustTrimData_space_replicate MAX_INPUT_LENGTH
  have hne : List.replicate MAX_INPUT_LENGTH 'a' ≠ [] := by
    intro hcon
    have hl := congrArg List.length hcon
    rw [List.length_replicate] at hl
    exact absurd hl (by decide)
  refine ⟨by rw [hdata, htrim, List.length_replicate], by rw [hdata, htrim]; exact hne, ?_, ?_⟩
  · unfold validate_input_length
    rw [hdata, htrim, rustByteLen_space_replicate]
    rw [if_neg (by simpa [List.isEmpty_iff] using hne), if_pos (by omega)]
  · rw [hdata, htrim]
    unfold validate_input_length
    rw [show (String.mk (List.replicate MAX_INPUT_LENGTH 'a')).data
        = List.replicate MAX_INPUT_LENGTH 'a' from rfl,
      rustTrimData_replicate, rustByteLen_replicate]
    rw [if_neg (by simpa [List.isEmpty_iff] using hne), if_neg (by omega)]

/-- Claim C9 (amended): the add/add_with_conflict/update gate
`validate_input_length` accepts exactly when the trimmed input is non-empty
and the *untrimmed* input's UTF-8 byte length is at most MAX_INPUT_LENGTH,
while the search entry points (search/search_hybrid) trim the query before
validating and so accept exactly when the trimmed query is non-empty and
the *trimmed* query's UTF-8 byte length is at most MAX_INPUT_LENGTH; in
every operation a rejected input fails with the validation error before any
embedding or storage work (no new store state is produced). -/
theorem c9_input_validation_amended (text : String) (st : MemoryStore)
    (newId now project_id : String) (metadata : Option String) (force : Bool) :
    (validate_input_length text = .ok () ↔
      rustTrimData text.data ≠ [] ∧ rustByteLen text ≤ MAX_INPUT_LENGTH) ∧
    (validate_input_length (String.mk (rustTrimData text.data)) = .ok () ↔
      rustTrimData text.data ≠ [] ∧
        rustByteLen (String.mk (rustTrimData text.data)) ≤ MAX_INPUT_LENGTH) ∧
    (∀ e, validate_input_length text = .error e →
      st.add_with_conflict newId now project_id text metadata force = .error e ∧
      st.add newId now project_id text metadata = .error e ∧
      st.update now newId text = .error e) ∧
    (∀ e, validate_input_length (String.mk (rustTrimData text.data)) = .error e →
      ∀ limit, limit ≠ 0 → limit ≤ MAX_SEARCH_LIMIT →
        st.search project_id text limit = .error e) := by
  refine ⟨validate_input_length_ok_iff text, ?_, ?_, ?_⟩
  · rw [validate_input_length_ok_iff (String.mk (rustTrimData text.data)),
      show (String.mk (rustTrimData text.data)).data = rustTrimData text.data from rfl,
      rustTrimData_idem]
  · intro e he
    unfold MemoryStore.add_with_conflict MemoryStore.add MemoryStore.update
    rw [he]
    exact ⟨rfl, rfl, rfl⟩
  · intro e he limit h0 hle
    unfold MemoryStore.search
    rw [if_neg h0, if_neg (by omega)]
    dsimp only
    rw [he]

theorem c9_input_validation_amended_witness :
    validate_input_length (String.mk ['h', 'i']) = .ok () ∧
    (MemoryStore.mk Database.createDb (fun _ => []) 0).update "t" "x" (String.mk []) =
      .error .EmptyInput ∧
    (MemoryStore.mk Database.createDb (fun _ => []) 0).search "p" (String.mk [' ']) 5 =
      .error .EmptyInput := by
  have h1 := c9_input_validation_amended (String.mk ['h', 'i'])
    ⟨Database.createDb, fun _ => [], 0⟩ "i" "t" "p" none false
  have h2 := c9_input_validation_amended (String.mk [])
    ⟨Database.createDb, fun _ => [], 0⟩ "x" "t" "p" none false
  have h3 := c9_input_validation_amended (String.mk [' '])
    ⟨Database.createDb, fun _ => [], 0⟩ "x" "t" "p" none false
  refine ⟨h1.1.mpr (by decide), (h2.2.2.1 .EmptyInput rfl).2.2, ?_⟩
  exact h3.2.2.2 .EmptyInput (by decide) 5 (by decide) (by decide)

/-! ## Cosine similarity (claim C4) -/

theorem normSq_nonneg (a : List F32) : 0 ≤ normSq a := by
  unfold normSq
  apply List.sum_nonneg
  intro x hx
  obtain ⟨y, -, rfl⟩ := List.mem_map.mp hx
  positivity

theorem toReal_zero_score : SimScore.toReal ⟨0, 1⟩ = 0 := by
  unfold SimScore.toReal
  norm_num

theorem toReal_cosine (a b : List F32) :
    SimScore.toReal ⟨dotQ a b, normSq a * normSq b⟩ =
      ((dotQ a b : ℚ) : ℝ) /
        (Real.sqrt ((normSq a : ℚ) : ℝ) * Real.sqrt ((normSq b : ℚ) : ℝ)) := by
  unfold SimScore.toReal
  rw [Rat.cast_mul, Real.sqrt_mul (by exact_mod_cast normSq_nonneg a)]

/-- Claim C4: `cosine_similarity` fails with `EmptyVector` exactly when one
input is empty; past that gate it fails with the dimension mismatch when the
lengths differ; past that, with `InvalidEmbedding` exactly when a component
is NaN or infinite; with all guards passed it succeeds — with exactly 0 when
either vector has zero norm, and otherwise with the cosine
`dot / (√(Σa²) · √(Σb²))` of the two vectors. -/
theorem c4_cosine_similarity_spec (a b : List F32) :
    (cosine_similarity a b = .error .EmptyVector ↔ a = [] ∨ b = []) ∧
    (a ≠ [] → b ≠ [] → a.length ≠ b.length →
      cosine_similarity a b = .error (.MismatchedDimensions a.length b.length)) ∧
    (a ≠ [] → b ≠ [] → a.length = b.length →
      (∃ x, (x ∈ a ∨ x ∈ b) ∧ (x.isNan ∨ x.isInfinite)) →
      cosine_similarity a b = .error (.InvalidEmbedding "Vector contains NaN or infinite values")) ∧
    (∀ msg, cosine_similarity a b = .error (.InvalidEmbedding msg) →
      ∃ x, (x ∈ a ∨ x ∈ b) ∧ (x.isNan ∨ x.isInfinite)) ∧
    (a ≠ [] → b ≠ [] → a.length = b.length →
      (∀ x, x ∈ a ∨ x ∈ b → ¬(x.isNan ∨ x.isInfinite)) →
      normSq a = 0 ∨ normSq b = 0 →
      cosine_similarity a b = .ok ⟨0, 1⟩ ∧ SimScore.toReal ⟨0, 1⟩ = 0) ∧
    (a ≠ [] → b ≠ [] → a.length = b.length →
      (∀ x, x ∈ a ∨ x ∈ b → ¬(x.isNan ∨ x.isInfinite)) →
      normSq a ≠ 0 → normSq b ≠ 0 →
      cosine_similarity a b = .ok ⟨dotQ a b, normSq a * normSq b⟩ ∧
      SimScore.toReal ⟨dotQ a b, normSq a * normSq b⟩ =
        ((dotQ a b : ℚ) : ℝ) /
          (Real.sqrt ((normSq a : ℚ) : ℝ) * Real.sqrt ((normSq b : ℚ) : ℝ))) := by
  have hemp : (a.isEmpty || b.isEmpty) = true ↔ a = [] ∨ b = [] := by
    simp [List.isEmpty_iff]
  have hnan : (a.any (fun x => x.isNan || x.isInfinite) ||
      b.any (fun x => x.isNan || x.isInfinite)) = true ↔
      ∃ x, (x ∈ a ∨ x ∈ b) ∧ (x.isNan ∨ x.isInfinite) := by
    simp only [Bool.or_eq_true, List.any_eq_true]
    constructor
    · rintro (⟨x, hx, hh⟩ | ⟨x, hx, hh⟩)
      · exact ⟨x, Or.inl hx, by simpa using hh⟩
      · exact ⟨x, Or.inr hx, by simpa using hh⟩
    · rintro ⟨x, hx | hx, hh⟩
      · exact Or.inl ⟨x, hx, by simpa using hh⟩
      · exact Or.inr ⟨x, hx, by simpa using hh⟩
  refine ⟨?_, ?_, ?_, ?_, ?_, ?_⟩
  · unfold cosine_similarity
    split_ifs with h1 h2 h3 h4 <;>
      simp_all
  · intro ha hb hlen
    unfold cosine_similarity
    rw [if_neg (by simp [hemp, ha, hb]), if_pos hlen]
  · intro ha hb hlen hx
    unfold cosine_similarity
    rw [if_neg (by simp [hemp, ha, hb]), if_neg (by omega), if_pos (hnan.mpr hx)]
  · intro msg h
    unfold cosine_similarity at h
    split_ifs at h with h1 h2 h3 h4 <;>
      first
        | (exact hnan.mp (by assumption))
        | simp at h
  · intro ha hb hlen hok hz
    refine ⟨?_, toReal_zero_score⟩
    unfold cosine_similarity
    rw [if_neg (by simp [hemp, ha, hb]), if_neg (by omega),
      if_neg (fun hcon => by obtain ⟨x, hx, hh⟩ := hnan.mp hcon; exact hok x hx hh),
      if_pos hz]
  · intro ha hb hlen hok hza hzb
    refine ⟨?_, toReal_cosine a b⟩
    unfold cosine_similarity
    rw [if_neg (by simp [hemp, ha, hb]), if_neg (by omega),
      if_neg (fun hcon => by obtain ⟨x, hx, hh⟩ := hnan.mp hcon; exact hok x hx hh),
      if_neg (by rintro (h | h) <;> [exact hza h; exact hzb h])]

theorem c4_cosine_similarity_witness :
    cosine_similarity [] [F32.finite 1] = .error .EmptyVector ∧
    cosine_similarity [F32.finite 1] [F32.finite 1, F32.finite 0] =
      .error (.MismatchedDimensions 1 2) ∧
    cosine_similarity [F32.nan] [F32.finite 1] =
      .error (.InvalidEmbedding "Vector contains NaN or infinite values") ∧
    cosine_similarity [F32.finite 0] [F32.finite 1] = .ok ⟨0, 1⟩ ∧
    cosine_similarity [F32.finite 1] [F32.finite 2] = .ok ⟨2, 4⟩ := by
  refine ⟨(c4_cosine_similarity_spec [] [F32.finite 1]).1.mpr (Or.inl rfl), ?_, ?_, ?_, ?_⟩
  · exact (c4_cosine_similarity_spec [F32.finite 1] [F32.finite 1, F32.finite 0]).2.1
      (by decide) (by decide) (by decide)
  · exact (c4_cosine_similarity_spec [F32.nan] [F32.finite 1]).2.2.1 (by decide) (by decide) rfl
      ⟨F32.nan, Or.inl (by simp), Or.inl rfl⟩
  · exact ((c4_cosine_similarity_spec [F32.finite 0] [F32.finite 1]).2.2.2.2.1
      (by decide) (by decide) rfl
      (by rintro x (hx | hx) <;> (rw [List.mem_singleton] at hx; subst hx; decide))
      (Or.inl (by norm_num [normSq, F32.toQ]))).1
  · exact ((c4_cosine_similarity_spec [F32.finite 1] [F32.finite 2]).2.2.2.2.2
      (by decide) (by decide) rfl
      (by rintro x (hx | hx) <;> (rw [List.mem_singleton] at hx; subst hx; decide))
      (by norm_num [normSq, F32.toQ]) (by norm_num [normSq, F32.toQ])).1.trans
      (congrArg Except.ok (by
        simp only [dotQ, normSq, F32.toQ, List.zipWith, List.map, List.sum_cons, List.sum_nil,
          SimScore.mk.injEq]
        norm_num))

/-! ## Temporal decay (claim C7) -/

theorem decay_validate_bounds (c : DecayConfig) (h : c.validate = .ok ()) :
    0 < c.lambda ∧ 0 ≤ c.offset_days := by
  unfold DecayConfig.validate at h
  by_cases h1 : c.lambda ≤ 0
  · rw [if_pos h1] at h
    exact absurd h (by simp)
  rw [if_neg h1] at h
  refine ⟨lt_of_not_le h1, ?_⟩
  rcases hf : c.validateFunction with e | u
  · rw [hf] at h
    exact absurd h (by simp)
  · rw [hf] at h
    by_cases h2 : c.offset_days < 0
    · rw [if_pos h2] at h
      exact absurd h (by simp)
    · exact not_lt.mp h2

theorem calculate_decay_exponential_eq (lam off a : ℚ) :
    (DecayConfig.mk .Exponential lam off).calculate_decay (.finite a) =
      (if (-lam * max (a - off * 86400) 0 : ℚ) < -700 then (0 : ℝ)
       else if (700 : ℚ) < -lam * max (a - off * 86400) 0 then 1
       else Real.exp ((-lam * max (a - off * 86400) 0 : ℚ) : ℝ)) := rfl

theorem calculate_decay_linear_eq (lam off a : ℚ) :
    (DecayConfig.mk .Linear lam off).calculate_decay (.finite a) =
      ((min (max ((1 : ℚ) - lam * max (a - off * 86400) 0 / 86400) 0) 1 : ℚ) : ℝ) := rfl

theorem calculate_decay_graced (c : DecayConfig) (a : ℚ) (h : a - c.offset_days * 86400 ≤ 0) :
    c.calculate_decay (.finite a) = 1 := by
  obtain ⟨f, lam, off⟩ := c
  have hea : max (a - off * 86400) 0 = 0 := max_eq_right h
  cases f
  · rw [calculate_decay_exponential_eq, hea, mul_zero]
    rw [if_neg (by norm_num), if_neg (by norm_num)]
    norm_num [Real.exp_zero]
  · rw [calculate_decay_linear_eq, hea, mul_zero]
    norm_num

theorem calculate_decay_mem_Icc (c : DecayConfig) (hl : 0 < c.lambda) (v : F64) :
    0 ≤ c.calculate_decay v ∧ c.calculate_decay v ≤ 1 := by
  obtain ⟨f, lam, off⟩ := c
  cases v with
  | nan => simp [DecayConfig.calculate_decay]
  | inf s => simp [DecayConfig.calculate_decay]
  | finite a =>
    cases f
    · rw [calculate_decay_exponential_eq]
      have hx0 : (-lam * max (a - off * 86400) 0 : ℚ) ≤ 0 := by
        have h0 : (0 : ℚ) ≤ max (a - off * 86400) 0 := le_max_right _ _
        have : (0 : ℚ) ≤ lam * max (a - off * 86400) 0 := mul_nonneg (le_of_lt hl) h0
        linarith
      split_ifs with h1 h2
      · norm_num
      · norm_num
      · refine ⟨Real.exp_nonneg _, Real.exp_le_one_iff.mpr ?_⟩
        exact_mod_cast hx0
    · rw [calculate_decay_linear_eq]
      constructor
      · have : (0 : ℚ) ≤ min (max ((1 : ℚ) - lam * max (a - off * 86400) 0 / 86400) 0) 1 :=
          le_min (le_max_right _ _) zero_le_one
        exact_mod_cast this
      · have : min (max ((1 : ℚ) - lam * max (a - off * 86400) 0 / 86400) 0) 1 ≤ 1 :=
          min_le_right _ _
        exact_mod_cast this

theorem calculate_decay_antitone (c : DecayConfig) (hl : 0 < c.lambda) (a1 a2 : ℚ)
    (h12 : a1 ≤ a2) :
    c.calculate_decay (.finite a2) ≤ c.calculate_decay (.finite a1) := by
  obtain ⟨f, lam, off⟩ := c
  have hea : max (a1 - off * 86400) 0 ≤ max (a2 - off * 86400) 0 :=
    max_le_max (sub_le_sub_right h12 _) le_rfl
  have hea1 : (0 : ℚ) ≤ max (a1 - off * 86400) 0 := le_max_right _ _
  have hea2 : (0 : ℚ) ≤ max (a2 - off * 86400) 0 := le_max_right _ _
  cases f
  · rw [calculate_decay_exponential_eq, calculate_decay_exponential_eq]
    have hx21 : (-lam * max (a2 - off * 86400) 0 : ℚ) ≤ -lam * max (a1 - off * 86400) 0 := by
      nlinarith
    have hx10 : (-lam * max (a1 - off * 86400) 0 : ℚ) ≤ 0 := by nlinarith
    have hx20 : (-lam * max (a2 - off * 86400) 0 : ℚ) ≤ 0 := by nlinarith
    rw [if_neg (show ¬ (700 : ℚ) < -lam * max (a2 - off * 86400) 0 by linarith),
      if_neg (show ¬ (700 : ℚ) < -lam * max (a1 - off * 86400) 0 by linarith)]
    by_cases h2 : (-lam * max (a2 - off * 86400) 0 : ℚ) < -700
    · rw [if_pos h2]
      by_cases h1 : (-lam * max (a1 - off * 86400) 0 : ℚ) < -700
      · rw [if_pos h1]
      · rw [if_neg h1]
        exact Real.exp_nonneg _
    · rw [if_neg h2, if_neg (show ¬ (-lam * max (a1 - off * 86400) 0 : ℚ) < -700 by linarith)]
      exact Real.exp_le_exp.mpr (by exact_mod_cast hx21)
  · rw [calculate_decay_linear_eq, calculate_decay_linear_eq]
    have hrate : lam * max (a1 - off * 86400) 0 / 86400 ≤ lam * max (a2 - off * 86400) 0 / 86400 := by
      have h := mul_le_mul_of_nonneg_left hea (le_of_lt hl)
      exact (div_le_div_iff_of_pos_right (by norm_num)).mpr h
    have : min (max ((1 : ℚ) - lam * max (a2 - off * 86400) 0 / 86400) 0) 1 ≤
        min (max ((1 : ℚ) - lam * max (a1 - off * 86400) 0 / 86400) 0) 1 :=
      min_le_min (max_le_max (by linarith) le_rfl) le_rfl
    exact_mod_cast this

/-- Claim C7: for every decay configuration accepted by `validate`, the decay
of a record created exactly now (age 0) is exactly 1; decay is non-increasing
in age; any age within the `offset_days` grace period has decay exactly 1;
the result always lies in [0, 1] (in particular it is a real number, never
NaN); a NaN or infinite age yields decay 0. -/
theorem c7_decay_properties (c : DecayConfig) (hv : c.validate = .ok ()) :
    c.calculate_decay (.finite 0) = 1 ∧
    (∀ a1 a2 : ℚ, 0 ≤ a1 → a1 < a2 →
      c.calculate_decay (.finite a2) ≤ c.calculate_decay (.finite a1)) ∧
    (∀ a : ℚ, 0 ≤ a → a ≤ c.offset_days * 86400 → c.calculate_decay (.finite a) = 1) ∧
    (∀ v : F64, 0 ≤ c.calculate_decay v ∧ c.calculate_decay v ≤ 1) ∧
    c.calculate_decay .nan = 0 ∧ (∀ s, c.calculate_decay (.inf s) = 0) := by
  obtain ⟨hl, ho⟩ := decay_validate_bounds c hv
  refine ⟨?_, ?_, ?_, calculate_decay_mem_Icc c hl, ?_, ?_⟩
  · apply calculate_decay_graced
    have : (0 : ℚ) ≤ c.offset_days * 86400 := mul_nonneg ho (by norm_num)
    linarith
  · intro a1 a2 _ h12
    exact calculate_decay_antitone c hl a1 a2 (le_of_lt h12)
  · intro a _ hle
    exact calculate_decay_graced c a (by linarith)
  · obtain ⟨f, lam, off⟩ := c
    simp [DecayConfig.calculate_decay]
  · intro s
    obtain ⟨f, lam, off⟩ := c
    simp [DecayConfig.calculate_decay]

theorem c7_decay_witness :
    DecayConfig.defaultConfig.validate = .ok () ∧
    DecayConfig.defaultConfig.calculate_decay (.finite 0) = 1 ∧
    (0 : ℚ) ≤ 5 ∧ (5 : ℚ) < 9 ∧
    DecayConfig.defaultConfig.calculate_decay (.finite 9) ≤
      DecayConfig.defaultConfig.calculate_decay (.finite 5) ∧
    DecayConfig.defaultConfig.calculate_decay .nan = 0 := by
  have hval : DecayConfig.defaultConfig.validate = .ok () := by
    unfold DecayConfig.defaultConfig DecayConfig.validate DecayConfig.validateFunction
    norm_num
  have h := c7_decay_properties DecayConfig.defaultConfig hval
  exact ⟨hval, h.1, by norm_num, by norm_num,
    h.2.1 5 9 (by norm_num) (by norm_num), h.2.2.2.2.1⟩

/-! ## Record-store / lexical-index synchronization (claim C2) -/

theorem wf_createDb : Database.createDb.wf := by
  refine ⟨List.nodup_nil, List.nodup_nil, ?_, List.Perm.nil⟩
  intro r hr
  exact absurd hr (List.not_mem_nil r)

theorem wf_insert_ok {db : Database} {newId now project content : String}
    {embedding : List Nat} {metadata : Option String} {out : String × Database}
    (h : db.insert newId now project content embedding metadata = .ok out) (hwf : db.wf) :
    out.2.wf := by
  obtain ⟨hid, hrow, hbound, hperm⟩ := hwf
  unfold Database.insert at h
  cases hblob : vec_to_blob embedding with
  | error e =>
    rw [hblob] at h
    exact absurd h (by simp)
  | ok blob =>
    rw [hblob] at h
    dsimp only at h
    by_cases hdup : db.memories.any (fun r => r.id == newId)
    · rw [if_pos hdup] at h
      exact absurd h (by simp)
    · rw [if_neg hdup] at h
      have hnotin : ∀ r ∈ db.memories, r.id ≠ newId := by
        intro r hr
        intro hcon
        exact hdup (List.any_eq_true.mpr ⟨r, hr, by simp [hcon]⟩)
      cases h
      refine ⟨?_, ?_, ?_, ?_⟩
      · rw [List.map_append, List.nodup_append]
        refine ⟨hid, List.nodup_singleton _, ?_⟩
        intro x hx hx2
        simp only [List.map_cons, List.map_nil, List.mem_singleton] at hx2
        obtain ⟨r, hr, rfl⟩ := List.mem_map.mp hx
        exact hnotin r hr hx2
      · rw [List.map_append, List.nodup_append]
        refine ⟨hrow, List.nodup_singleton _, ?_⟩
        intro x hx hx2
        simp only [List.map_cons, List.map_nil, List.mem_singleton] at hx2
        obtain ⟨r, hr, rfl⟩ := List.mem_map.mp hx
        exact absurd (hx2 ▸ hbound r hr) (lt_irrefl _)
      · intro r hr
        rcases List.mem_append.mp hr with hr | hr
        · exact Nat.lt_succ_of_lt (hbound r hr)
        · rw [List.mem_singleton.mp hr]
          exact Nat.lt_succ_self _
      · rw [List.map_append]
        exact hperm.append_right _

theorem update_fts_perm_core (l : List MemRow) (id content : String) (blob : List Nat)
    (now : String) (old : MemRow)
    (hid : (l.map MemRow.id).Nodup) (hrow : (l.map MemRow.rowid).Nodup)
    (hold_mem : old ∈ l) (hold_id : old.id = id) :
    List.Perm (((l.map MemRow.toFts).filter (fun f => f.rowid != old.rowid)) ++
        [⟨old.rowid, content, old.project_id⟩])
      ((l.map (fun r => if r.id == id then
          { r with content := content, embedding := blob, updated_at := now }
        else r)).map MemRow.toFts) := by
  induction l with
  | nil => cases hold_mem
  | cons r t ih =>
    by_cases hc : r.id = id
    · -- the updated row is the head
      have hold_r : old = r := by
        rcases List.mem_cons.mp hold_mem with h | h
        · exact h
        · exfalso
          have : old.id ∈ t.map MemRow.id := List.mem_map_of_mem MemRow.id h
          rw [hold_id, ← hc] at this
          exact (List.nodup_cons.mp hid).1 this
      subst hold_r
      have htfalse : ∀ s ∈ t, ¬(s.id == id) := by
        intro s hs hcon
        have : s.id ∈ t.map MemRow.id := List.mem_map_of_mem MemRow.id hs
        rw [show s.id = id from by simpa using hcon, ← hc] at this
        exact (List.nodup_cons.mp hid).1 this
      have htmap : t.map (fun r => if r.id == id then
          { r with content := content, embedding := blob, updated_at := now } else r) = t := by
        have hcong : ∀ s ∈ t, (if s.id == id then
            { s with content := content, embedding := blob, updated_at := now } else s) = s := by
          intro s hs
          rw [if_neg (htfalse s hs)]
        exact (List.map_congr_left hcong).trans (List.map_id t)
      have hrowt : ∀ f ∈ t.map MemRow.toFts, (f.rowid != old.rowid) = true := by
        intro f hf
        obtain ⟨s, hs, rfl⟩ := List.mem_map.mp hf
        have hne : s.rowid ≠ old.rowid := by
          intro hcon
          have : old.rowid ∈ t.map MemRow.rowid := by
            rw [← hcon]
            exact List.mem_map_of_mem MemRow.rowid hs
          exact (List.nodup_cons.mp hrow).1 this
        simpa using hne
      rw [List.map_cons, List.filter_cons_of_neg (by simp [MemRow.toFts]),
        List.filter_eq_self.mpr hrowt, List.map_cons, htmap]
      rw [if_pos (by simp [hc])]
      exact List.perm_append_singleton _ _
    · -- the head is untouched; recurse
      have hold_t : old ∈ t := by
        rcases List.mem_cons.mp hold_mem with h | h
        · exact absurd (h ▸ hold_id) hc
        · exact h
      have hrne : r.rowid ≠ old.rowid := by
        intro hcon
        have : r.rowid ∈ t.map MemRow.rowid := by
          rw [hcon]
          exact List.mem_map_of_mem MemRow.rowid hold_t
        exact (List.nodup_cons.mp hrow).1 this
      rw [List.map_cons, List.filter_cons_of_pos (by simpa [MemRow.toFts] using hrne),
        List.map_cons, if_neg (by simpa using hc), List.cons_append]
      exact List.Perm.cons _ (ih (List.nodup_cons.mp hid).2 (List.nodup_cons.mp hrow).2 hold_t)

theorem delete_fts_eq_core (l : List MemRow) (id : String)
    (hrow : (l.map MemRow.rowid).Nodup) :
    (l.map MemRow.toFts).filter
        (fun f => (l.filter (fun r => r.id == id)).all (fun r => r.rowid != f.rowid)) =
      (l.filter (fun r => !(r.id == id))).map MemRow.toFts := by
  rw [List.filter_map]
  congr 1
  apply List.filter_congr
  intro r hr
  by_cases hc : r.id = id
  · have hmem : r ∈ l.filter (fun r => r.id == id) :=
      List.mem_filter.mpr ⟨hr, by simp [hc]⟩
    have : ¬ (l.filter (fun r => r.id == id)).all (fun s => s.rowid != r.rowid) := by
      intro hall
      have := List.all_eq_true.mp hall r hmem
      simp at this
    simp only [Function.comp, MemRow.toFts, Bool.not_eq_true]
    rw [Bool.eq_false_iff.mpr this]
    simp [hc]
  · have hall : (l.filter (fun r => r.id == id)).all (fun s => s.rowid != r.rowid) = true := by
      rw [List.all_eq_true]
      intro s hs
      obtain ⟨hsl, hsid⟩ := List.mem_filter.mp hs
      have hne : s.rowid ≠ r.rowid := by
        intro hcon
        have : s = r := List.inj_on_of_nodup_map hrow hsl hr hcon
        subst this
        exact hc (by simpa using hsid)
      simpa using hne
    simp only [Function.comp, MemRow.toFts]
    rw [hall]
    simp [hc]

theorem wf_update_ok {db db2 : Database} {id content : String} {embedding : List Nat}
    {now : String} (h : db.update id content embedding now = .ok db2) (hwf : db.wf) :
    db2.wf := by
  obtain ⟨hid, hrow, hbound, hperm⟩ := hwf
  unfold Database.update at h
  cases hblob : vec_to_blob embedding with
  | error e =>
    rw [hblob] at h
    exact absurd h (by simp)
  | ok blob =>
    rw [hblob] at h
    dsimp only at h
    cases hfind : db.memories.find? (fun r => r.id == id) with
    | none =>
      rw [hfind] at h
      exact absurd h (by simp)
    | some old =>
      rw [hfind] at h
      have hold_mem : old ∈ db.memories := List.mem_of_find?_eq_some hfind
      have hold_id : old.id = id := by
        have := List.find?_some hfind
        simpa using this
      cases h
      have hmapid : (db.memories.map (fun r =>
          if r.id == id then { r with content := content, embedding := blob, updated_at := now }
          else r)).map MemRow.id = db.memories.map MemRow.id := by
        rw [List.map_map]
        apply List.map_congr_left
        intro r _
        by_cases hc : r.id == id
        · rw [Function.comp_apply, if_pos hc]
        · rw [Function.comp_apply, if_neg hc]
      have hmaprow : (db.memories.map (fun r =>
          if r.id == id then { r with content := content, embedding := blob, updated_at := now }
          else r)).map MemRow.rowid = db.memories.map MemRow.rowid := by
        rw [List.map_map]
        apply List.map_congr_left
        intro r _
        by_cases hc : r.id == id
        · rw [Function.comp_apply, if_pos hc]
        · rw [Function.comp_apply, if_neg hc]
      refine ⟨by rw [hmapid]; exact hid, by rw [hmaprow]; exact hrow, ?_, ?_⟩
      · intro r hr
        obtain ⟨s, hs, rfl⟩ := List.mem_map.mp hr
        by_cases hc : s.id == id
        · rw [if_pos hc]
          exact hbound s hs
        · rw [if_neg hc]
          exact hbound s hs
      · -- FTS permutation
        refine ((hperm.filter _).append (List.Perm.refl _)).trans ?_
        exact update_fts_perm_core db.memories id content blob now old hid hrow hold_mem hold_id

theorem wf_delete_ok {db : Database} {id : String} {out : Bool × Database}
    (h : db.delete id = .ok out) (hwf : db.wf) : out.2.wf := by
  obtain ⟨hid, hrow, hbound, hperm⟩ := hwf
  unfold Database.delete at h
  cases h
  refine ⟨?_, ?_, ?_, ?_⟩
  · exact List.Nodup.sublist (List.Sublist.map _ (List.filter_sublist _)) hid
  · exact List.Nodup.sublist (List.Sublist.map _ (List.filter_sublist _)) hrow
  · intro r hr
    exact hbound r (List.mem_of_mem_filter hr)
  · refine (hperm.filter _).trans ?_
    rw [delete_fts_eq_core db.memories id hrow]

theorem initialize_fts_flag_true {db : Database} (h : db.ftsHasProjectId = true) :
    db.initialize_fts = .ok db := by
  unfold Database.initialize_fts
  rw [if_pos h]

theorem initialize_fts_flag_false {db : Database} (h : db.ftsHasProjectId = false) :
    db.initialize_fts =
      .ok { db with
            memories_fts := db.memories.map MemRow.toFts
            ftsHasProjectId := true } := by
  unfold Database.initialize_fts
  rw [if_neg (by simp [h])]
  simp [List.length_map]

theorem wf_initialize_fts_ok {db db2 : Database} (h : db.initialize_fts = .ok db2)
    (hwf : db.wf) : db2.wf := by
  obtain ⟨hid, hrow, hbound, hperm⟩ := hwf
  by_cases hflag : db.ftsHasProjectId
  · rw [initialize_fts_flag_true hflag] at h
    cases h
    exact ⟨hid, hrow, hbound, hperm⟩
  · rw [initialize_fts_flag_false (Bool.not_eq_true _ ▸ hflag)] at h
    cases h
    exact ⟨hid, hrow, hbound, List.Perm.refl _⟩

theorem wf_stepOp (db : Database) (op : DbOp) (hwf : db.wf) : (db.stepOp op).wf := by
  cases op with
  | insertOp newId now project content embedding metadata =>
    unfold Database.stepOp
    dsimp only
    cases h : db.insert newId now project content embedding metadata with
    | ok out =>
      obtain ⟨rid, db2⟩ := out
      exact wf_insert_ok h hwf
    | error e =>
      exact hwf
  | updateOp id content embedding now =>
    unfold Database.stepOp
    dsimp only
    cases h : db.update id content embedding now with
    | ok db2 =>
      exact wf_update_ok h hwf
    | error e =>
      exact hwf
  | deleteOp id =>
    unfold Database.stepOp
    dsimp only
    cases h : db.delete id with
    | ok out =>
      obtain ⟨b, db2⟩ := out
      exact wf_delete_ok h hwf
    | error e =>
      exact hwf
  | initFts =>
    unfold Database.stepOp
    dsimp only
    cases h : db.initialize_fts with
    | ok db2 =>
      exact wf_initialize_fts_ok h hwf
    | error e =>
      exact hwf

theorem wf_runOps (ops : List DbOp) : (ops.foldl Database.stepOp Database.createDb).wf := by
  suffices h : ∀ db : Database, db.wf → (ops.foldl Database.stepOp db).wf from
    h _ wf_createDb
  induction ops with
  | nil =>
    intro db hdb
    exact hdb
  | cons op t ih =>
    intro db hdb
    exact ih _ (wf_stepOp db op hdb)

/-- Claim C2: every record-store mutation applies the matching lexical-index
change in the same step, so after any sequence of insert/update/delete
operations and any number of `initialize_fts` calls starting from a fresh
schema, the FTS table holds exactly one row per record row with the same
identity (`Database.wf`, which carries that permutation); `initialize_fts` on
a current-schema (already consistent) store returns the store unchanged; on
an outdated schema it commits only the fully-populated rebuild — every
successful call leaves either the old state or a fully-populated index, and
the count-mismatch branch aborts with an error committing nothing. -/
theorem c2_lexical_index_synchronization :
    (∀ (db : Database) (op : DbOp), db.wf → (db.stepOp op).wf) ∧
    (∀ ops : List DbOp, (ops.foldl Database.stepOp Database.createDb).wf) ∧
    (∀ ops : List DbOp,
      List.Perm (ops.foldl Database.stepOp Database.createDb).memories_fts
        ((ops.foldl Database.stepOp Database.createDb).memories.map MemRow.toFts)) ∧
    (∀ db : Database, db.ftsHasProjectId = true → db.initialize_fts = .ok db) ∧
    (∀ db : Database, db.ftsHasProjectId = false →
      db.initialize_fts =
        .ok { db with
              memories_fts := db.memories.map MemRow.toFts
              ftsHasProjectId := true }) ∧
    (∀ db db2 : Database, db.initialize_fts = .ok db2 →
      db2 = db ∨ (db2.memories_fts = db2.memories.map MemRow.toFts ∧
        db2.memories_fts.length = db2.memories.length)) := by
  refine ⟨wf_stepOp, wf_runOps, fun ops => (wf_runOps ops).2.2.2, ?_, ?_, ?_⟩
  · intro db h
    exact initialize_fts_flag_true h
  · intro db h
    exact initialize_fts_flag_false h
  · intro db db2 h
    by_cases hflag : db.ftsHasProjectId
    · rw [initialize_fts_flag_true hflag] at h
      cases h
      exact Or.inl rfl
    · rw [initialize_fts_flag_false (Bool.not_eq_true _ ▸ hflag)] at h
      cases h
      exact Or.inr ⟨rfl, by rw [List.length_map]⟩

theorem c2_lexical_index_synchronization_witness :
    ([DbOp.insertOp "id1" "t1" "proj" "hello world" (List.replicate 384 0) none,
      DbOp.updateOp "id1" "updated text" (List.replicate 384 0) "t2",
      DbOp.initFts,
      DbOp.deleteOp "id1"].foldl Database.stepOp Database.createDb).wf ∧
    Database.createDb.initialize_fts = .ok Database.createDb :=
  ⟨c2_lexical_index_synchronization.2.1 _,
    c2_lexical_index_synchronization.2.2.2.1 Database.createDb rfl⟩

/-! ## Vector-search scan abort (claim C6) -/

theorem chunksToWords_length : ∀ l : List Nat, (chunksToWords l).length = l.length / 4
  | [] => rfl
  | [_] => by simp [chunksToWords]
  | [_, _] => by simp [chunksToWords]
  | [_, _, _] => by simp [chunksToWords]
  | _ :: _ :: _ :: _ :: rest => by
    rw [chunksToWords, List.length_cons, chunksToWords_length rest]
    simp only [List.length_cons]
    omega

theorem cosine_similarity_error_isCodec {a b : List F32} {e : SqError}
    (h : cosine_similarity a b = .error e) : e.isCodec := by
  unfold cosine_similarity at h
  split_ifs at h with h1 h2 h3 h4 <;> cases h <;> rfl

theorem blob_to_vec_error_isCodec {blob : List Nat} {e : SqError}
    (h : blob_to_vec blob = .error e) : e.isCodec := by
  unfold blob_to_vec at h
  split_ifs at h with h1
  cases h
  rfl

theorem scoreRow_error_isCodec {query : List Nat} {r : MemRow} {e : SqError}
    (h : scoreRow query r = .error e) : e.isCodec := by
  unfold scoreRow at h
  cases hb : blob_to_vec r.embedding with
  | error e2 =>
    rw [hb] at h
    cases h
    exact blob_to_vec_error_isCodec hb
  | ok stored =>
    rw [hb] at h
    dsimp only at h
    cases hc : cosine_similarity (query.map f32FromBits) (stored.map f32FromBits) with
    | error e2 =>
      rw [hc] at h
      cases h
      exact cosine_similarity_error_isCodec hc
    | ok sim =>
      rw [hc] at h
      exact absurd h (by simp)

theorem scoreRow_error_of_corrupt (query : List Nat) (r : MemRow)
    (hq_len : query.length = EMBEDDING_DIMS)
    (hbad : r.embedding.length ≠ EMBEDDING_BLOB_SIZE ∨
      ∃ x ∈ (chunksToWords r.embedding).map f32FromBits, (x.isNan ∨ x.isInfinite)) :
    ∃ e, scoreRow query r = .error e := by
  unfold scoreRow
  rcases hbad with hlen | ⟨x, hx, hnan⟩
  · rw [show blob_to_vec r.embedding =
        .error (.InvalidBlobSize EMBEDDING_BLOB_SIZE r.embedding.length) from by
      unfold blob_to_vec; rw [if_pos hlen]]
    exact ⟨_, rfl⟩
  · by_cases hlen : r.embedding.length = EMBEDDING_BLOB_SIZE
    · rw [show blob_to_vec r.embedding = .ok (chunksToWords r.embedding) from by
        unfold blob_to_vec; rw [if_neg (by omega)]]
      dsimp only
      have hq_ne : query.map f32FromBits ≠ [] := by
        intro hcon
        have := congrArg List.length hcon
        rw [List.length_map, hq_len] at this
        exact absurd this (by decide)
      have hs_ne : (chunksToWords r.embedding).map f32FromBits ≠ [] := by
        intro hcon
        rw [hcon] at hx
        cases hx
      by_cases heq : (query.map f32FromBits).length =
          ((chunksToWords r.embedding).map f32FromBits).length
      · rw [show cosine_similarity (query.map f32FromBits)
            ((chunksToWords r.embedding).map f32FromBits) =
            .error (.InvalidEmbedding "Vector contains NaN or infinite values") from ?_]
        · exact ⟨_, rfl⟩
        · unfold cosine_similarity
          rw [if_neg (by simp [List.isEmpty_iff, hq_ne, hs_ne]), if_neg (by omega),
            if_pos ?_]
          rw [Bool.or_eq_true]
          refine Or.inr (List.any_eq_true.mpr ⟨x, hx, ?_⟩)
          rcases hnan with h | h <;> simp [h]
      · rw [show cosine_similarity (query.map f32FromBits)
            ((chunksToWords r.embedding).map f32FromBits) =
            .error (.MismatchedDimensions (query.map f32FromBits).length
              ((chunksToWords r.embedding).map f32FromBits).length) from ?_]
        · exact ⟨_, rfl⟩
        · unfold cosine_similarity
          rw [if_neg (by simp [List.isEmpty_iff, hq_ne, hs_ne]), if_pos heq]
    · rw [show blob_to_vec r.embedding =
          .error (.InvalidBlobSize EMBEDDING_BLOB_SIZE r.embedding.length) from by
        unfold blob_to_vec; rw [if_pos hlen]]
      exact ⟨_, rfl⟩

theorem mapM_except_error {α β : Type} (f : α → Except SqError β) (P : SqError → Prop)
    (l : List α) (hP : ∀ a ∈ l, ∀ e, f a = .error e → P e)
    (h : ∃ a ∈ l, ∃ e, f a = .error e) :
    ∃ e, l.mapM f = .error e ∧ P e := by
  induction l with
  | nil =>
    obtain ⟨a, ha, _⟩ := h
    cases ha
  | cons x t ih =>
    have hcons : (x :: t).mapM f =
        f x >>= fun b => t.mapM f >>= fun bs => pure (b :: bs) := by
      rw [List.mapM_cons]
    cases hf : f x with
    | error e =>
      refine ⟨e, ?_, hP x (List.mem_cons_self x t) e hf⟩
      rw [hcons, hf]
      rfl
    | ok b =>
      obtain ⟨a, ha, e, hae⟩ := h
      rcases List.mem_cons.mp ha with rfl | ha2
      · rw [hf] at hae
        exact absurd hae (by simp)
      · obtain ⟨e2, he2, hPe2⟩ := ih
          (fun a2 ha2 e2 he2 => hP a2 (List.mem_cons_of_mem x ha2) e2 he2)
          ⟨a, ha2, e, hae⟩
        refine ⟨e2, ?_, hPe2⟩
        rw [hcons, hf, he2]
        rfl

/-- Claim C6: if any single stored row of the scanned project is corrupted —
wrong blob size, or a NaN/infinite decoded component — then the entire search
fails with a codec error and returns no result list at all; the bad row is
never skipped. -/
theorem c6_scan_aborts_on_corrupt_row (db : Database) (project_id : String)
    (query : List Nat) (limit : Nat)
    (hlim : validate_limit limit = .ok ())
    (hq_len : query.length = EMBEDDING_DIMS)
    (hbad : ∃ r ∈ db.memories, r.project_id = project_id ∧
      (r.embedding.length ≠ EMBEDDING_BLOB_SIZE ∨
        ∃ x ∈ (chunksToWords r.embedding).map f32FromBits, (x.isNan ∨ x.isInfinite))) :
    ∃ e, db.search project_id query limit = .error e ∧ e.isCodec ∧
      ∀ res, db.search project_id query limit ≠ .ok res := by
  obtain ⟨r, hr, hrp, hrbad⟩ := hbad
  have hmem : r ∈ db.memories.filter (fun r => r.project_id == project_id) :=
    List.mem_filter.mpr ⟨hr, by simp [hrp]⟩
  obtain ⟨e, he, hcodec⟩ := mapM_except_error (scoreRow query) (fun e => e.isCodec)
    (db.memories.filter (fun r => r.project_id == project_id))
    (fun a _ e hae => scoreRow_error_isCodec hae)
    ⟨r, hmem, scoreRow_error_of_corrupt query r hq_len hrbad⟩
  have hsearch : db.search project_id query limit = .error e := by
    unfold Database.search
    rw [hlim]
    dsimp only
    rw [he]
  exact ⟨e, hsearch, hcodec, fun res hcon => by rw [hsearch] at hcon; cases hcon⟩

theorem c6_scan_aborts_witness :
    ∃ e, (Database.mk [⟨1, "m1", "p", "text", [], none, "t", "t"⟩]
        [⟨1, "text", "p"⟩] true 2).search "p" (List.replicate 384 0) 10 = .error e ∧
      e.isCodec := by
  obtain ⟨e, he, hc, -⟩ := c6_scan_aborts_on_corrupt_row
    (Database.mk [⟨1, "m1", "p", "text", [], none, "t", "t"⟩] [⟨1, "text", "p"⟩] true 2)
    "p" (List.replicate 384 0) 10 rfl (by rw [List.length_replicate]; rfl)
    ⟨⟨1, "m1", "p", "text", [], none, "t", "t"⟩, by simp, rfl, Or.inl (by decide)⟩
  exact ⟨e, he, hc⟩

/-! ## Conflict gate (claim C5) -/

theorem insert_ok (db : Database) (newId now project_id content : String)
    (embedding : List Nat) (metadata : Option String)
    (hlen : embedding.length = EMBEDDING_DIMS)
    (hfresh : ∀ r ∈ db.memories, r.id ≠ newId) :
    db.insert newId now project_id content embedding metadata =
      .ok (newId, { db with
        memories := db.memories ++
          [⟨db.nextRowid, newId, project_id, content, embedding.flatMap toLeBytes, metadata,
            now, now⟩],
        memories_fts := db.memories_fts ++ [⟨db.nextRowid, content, project_id⟩],
        nextRowid := db.nextRowid + 1 }) := by
  unfold Database.insert
  rw [show vec_to_blob embedding = .ok (embedding.flatMap toLeBytes) from by
    unfold vec_to_blob; rw [if_neg (by omega)]]
  dsimp only
  rw [if_neg (by
    rw [List.any_eq_true]
    rintro ⟨r, hr, hc⟩
    exact hfresh r hr (by simpa using hc))]
  rfl

theorem scoreRow_ok (query : List Nat) (r : MemRow) (hq : validQuery query)
    (hr : r.healthy) : scoreRow query r = .ok (rowMemory query r) := by
  obtain ⟨hqlen, hqfin⟩ := hq
  obtain ⟨hrlen, hrfin⟩ := hr
  unfold scoreRow
  rw [show blob_to_vec r.embedding = .ok (chunksToWords r.embedding) from by
    unfold blob_to_vec; rw [if_neg (by omega)]]
  dsimp only
  have hlens : (query.map f32FromBits).length =
      ((chunksToWords r.embedding).map f32FromBits).length := by
    rw [List.length_map, List.length_map, chunksToWords_length, hrlen, hqlen]
    rfl
  have hqne : query.map f32FromBits ≠ [] := by
    intro hcon
    have := congrArg List.length hcon
    rw [List.length_map, hqlen] at this
    exact absurd this (by decide)
  have hsne : (chunksToWords r.embedding).map f32FromBits ≠ [] := by
    intro hcon
    apply hqne
    apply List.eq_nil_of_length_eq_zero
    rw [hlens, hcon]
    rfl
  have hnon : ¬ (((query.map f32FromBits).any fun x => x.isNan || x.isInfinite) ||
      ((chunksToWords r.embedding).map f32FromBits).any fun x => x.isNan || x.isInfinite) = true := by
    rw [Bool.or_eq_true]
    rintro (hc | hc) <;> obtain ⟨x, hx, hxx⟩ := List.any_eq_true.mp hc
    · exact hqfin x hx (by simpa using hxx)
    · exact hrfin x hx (by simpa using hxx)
  unfold cosine_similarity
  rw [if_neg (by simp [List.isEmpty_iff, hqne, hsne]), if_neg (by omega), if_neg hnon]
  unfold rowMemory rowScore
  by_cases hz : normSq (query.map f32FromBits) = 0 ∨
      normSq ((chunksToWords r.embedding).map f32FromBits) = 0
  · rw [if_pos hz, if_pos hz]
  · rw [if_neg hz, if_neg hz]

theorem mapM_except_ok_map {α β : Type} (f : α → Except SqError β) (g : α → β) :
    ∀ l : List α, (∀ a ∈ l, f a = .ok (g a)) → l.mapM f = .ok (l.map g) := by
  intro l
  induction l with
  | nil => intro _; rfl
  | cons x t ih =>
    intro h
    have hcons : (x :: t).mapM f =
        f x >>= fun b => t.mapM f >>= fun bs => pure (b :: bs) := by
      rw [List.mapM_cons]
    rw [hcons, h x (List.mem_cons_self x t), ih (fun a ha => h a (List.mem_cons_of_mem x ha))]
    rfl

theorem search_ok_of_healthy (db : Database) (project_id : String) (query : List Nat)
    (hq : validQuery query)
    (hhealthy : ∀ r ∈ db.memories.filter (fun r => r.project_id == project_id), r.healthy)
    (hcount : (db.memories.filter (fun r => r.project_id == project_id)).length ≤
      MAX_SEARCH_LIMIT) :
    ∃ out, db.search project_id query MAX_SEARCH_LIMIT = .ok out ∧
      List.Perm out ((db.memories.filter (fun r => r.project_id == project_id)).map
        (rowMemory query)) := by
  have hmapM : (db.memories.filter (fun r => r.project_id == project_id)).mapM
      (scoreRow query) = .ok ((db.memories.filter (fun r => r.project_id == project_id)).map
        (rowMemory query)) :=
    mapM_except_ok_map (scoreRow query) (rowMemory query) _
      (fun r hr => scoreRow_ok query r hq (hhealthy r hr))
  refine ⟨(((db.memories.filter (fun r => r.project_id == project_id)).map
      (rowMemory query)).mergeSort (fun a b =>
        SimScore.leB ((b.similarity).getD ⟨0, 1⟩) ((a.similarity).getD ⟨0, 1⟩))).take
      MAX_SEARCH_LIMIT, ?_, ?_⟩
  · unfold Database.search
    rw [show validate_limit MAX_SEARCH_LIMIT = .ok () from rfl]
    dsimp only
    rw [hmapM]
  · rw [List.take_of_length_le (by rw [List.length_mergeSort, List.length_map]; exact hcount)]
    exact List.mergeSort_perm _ _

theorem find_similar_of_healthy (db : Database) (project_id : String) (query : List Nat)
    (threshold : ℚ) (hq : validQuery query)
    (hhealthy : ∀ r ∈ db.memories.filter (fun r => r.project_id == project_id), r.healthy)
    (hcount : (db.memories.filter (fun r => r.project_id == project_id)).length ≤
      MAX_SEARCH_LIMIT) :
    ∃ res, db.find_similar project_id query threshold = .ok res ∧
      List.Perm res (((db.memories.filter (fun r => r.project_id == project_id)).filter
        (fun r => (rowScore query r).geB threshold)).map (rowMemory query)) := by
  obtain ⟨out, hout, hperm⟩ := search_ok_of_healthy db project_id query hq hhealthy hcount
  refine ⟨out.filter (fun m => ((m.similarity).getD ⟨0, 1⟩).geB threshold), ?_, ?_⟩
  · unfold Database.find_similar
    rw [hout]
  · refine (hperm.filter _).trans ?_
    rw [List.filter_map]
    exact List.Perm.refl _

/-- Claim C5: with a valid embedding for the content and a healthy store,
`add_with_conflict` with `force = true` always persists exactly one new row
and returns `Added`; with `force = false` it returns `Conflicts` — listing
precisely the records whose similarity reaches the configured threshold —
and leaves the store state completely unchanged whenever some stored record
reaches the threshold, and otherwise persists the row and returns `Added`. -/
theorem c5_conflict_gate (st : MemoryStore) (newId now project_id content : String)
    (metadata : Option String)
    (hvalid : validate_input_length content = .ok ())
    (hq : validQuery (st.embed content))
    (hfresh : ∀ r ∈ st.db.memories, r.id ≠ newId)
    (hhealthy : ∀ r ∈ st.db.memories.filter (fun r => r.project_id == project_id), r.healthy)
    (hcount : (st.db.memories.filter (fun r => r.project_id == project_id)).length ≤
      MAX_SEARCH_LIMIT) :
    (∃ row : MemRow, row.id = newId ∧ row.content = content ∧
      st.add_with_conflict newId now project_id content metadata true =
        .ok (.Added newId, { st with db := { st.db with
          memories := st.db.memories ++ [row],
          memories_fts := st.db.memories_fts ++ [row.toFts],
          nextRowid := st.db.nextRowid + 1 } })) ∧
    ((∃ r ∈ st.db.memories.filter (fun r => r.project_id == project_id),
        (rowScore (st.embed content) r).geB st.similarity_threshold) →
      ∃ conflicts, st.add_with_conflict newId now project_id content metadata false =
          .ok (.Conflicts content conflicts, st) ∧
        conflicts ≠ [] ∧
        (∀ c ∈ conflicts, ∃ r ∈ st.db.memories.filter (fun r => r.project_id == project_id),
          c.id = r.id ∧ c.content = r.content ∧ c.similarity = rowScore (st.embed content) r ∧
          (rowScore (st.embed content) r).geB st.similarity_threshold) ∧
        (∀ r ∈ st.db.memories.filter (fun r => r.project_id == project_id),
          (rowScore (st.embed content) r).geB st.similarity_threshold →
          ∃ c ∈ conflicts, c.id = r.id)) ∧
    ((∀ r ∈ st.db.memories.filter (fun r => r.project_id == project_id),
        ¬ (rowScore (st.embed content) r).geB st.similarity_threshold) →
      ∃ row : MemRow, row.id = newId ∧ row.content = content ∧
        st.add_with_conflict newId now project_id content metadata false =
          .ok (.Added newId, { st with db := { st.db with
            memories := st.db.memories ++ [row],
            memories_fts := st.db.memories_fts ++ [row.toFts],
            nextRowid := st.db.nextRowid + 1 } })) := by
  have hinsert := insert_ok st.db newId now project_id content (st.embed content) metadata
    hq.1 hfresh
  refine ⟨?_, ?_, ?_⟩
  · refine ⟨⟨st.db.nextRowid, newId, project_id, content,
      (st.embed content).flatMap toLeBytes, metadata, now, now⟩, rfl, rfl, ?_⟩
    unfold MemoryStore.add_with_conflict
    rw [hvalid]
    dsimp only
    rw [if_pos rfl, hinsert]
    rfl
  · intro hconf
    obtain ⟨res, hres, hperm⟩ := find_similar_of_healthy st.db project_id (st.embed content)
      st.similarity_threshold hq hhealthy hcount
    have hres_ne : res ≠ [] := by
      intro hcon
      obtain ⟨r, hr, hge⟩ := hconf
      have : rowMemory (st.embed content) r ∈ res := by
        refine hperm.mem_iff.mpr (List.mem_map_of_mem _ (List.mem_filter.mpr ⟨hr, hge⟩))
      rw [hcon] at this
      cases this
    refine ⟨res.map (fun m => (⟨m.id, m.content, (m.similarity).getD ⟨0, 1⟩⟩ : ConflictMemory)),
      ?_, ?_, ?_, ?_⟩
    · unfold MemoryStore.add_with_conflict
      rw [hvalid]
      dsimp only
      rw [if_neg (by simp), hres]
      dsimp only
      rw [if_neg (by
        rw [List.isEmpty_iff, List.map_eq_nil_iff]
        exact hres_ne)]
    · rw [Ne, List.map_eq_nil_iff]
      exact hres_ne
    · intro c hc
      obtain ⟨m, hm, rfl⟩ := List.mem_map.mp hc
      obtain ⟨r, hrmem, rfl⟩ := List.mem_map.mp (hperm.mem_iff.mp hm)
      obtain ⟨hr, hge⟩ := List.mem_filter.mp hrmem
      exact ⟨r, hr, rfl, rfl, rfl, hge⟩
    · intro r hr hge
      refine ⟨⟨r.id, r.content, rowScore (st.embed content) r⟩, ?_, rfl⟩
      refine List.mem_map.mpr ⟨rowMemory (st.embed content) r, ?_, rfl⟩
      exact hperm.mem_iff.mpr (List.mem_map_of_mem _ (List.mem_filter.mpr ⟨hr, hge⟩))
  · intro hnone
    obtain ⟨res, hres, hperm⟩ := find_similar_of_healthy st.db project_id (st.embed content)
      st.similarity_threshold hq hhealthy hcount
    have hres_nil : res = [] := by
      have : ((st.db.memories.filter (fun r => r.project_id == project_id)).filter
          (fun r => (rowScore (st.embed content) r).geB st.similarity_threshold)) = [] := by
        rw [List.filter_eq_nil_iff]
        exact hnone
      rw [this, List.map_nil] at hperm
      exact List.Perm.eq_nil hperm
    refine ⟨⟨st.db.nextRowid, newId, project_id, content,
      (st.embed content).flatMap toLeBytes, metadata, now, now⟩, rfl, rfl, ?_⟩
    unfold MemoryStore.add_with_conflict
    rw [hvalid]
    dsimp only
    rw [if_neg (by simp), hres, hres_nil]
    dsimp only
    rw [if_pos (show (List.map (fun m : Memory =>
        (⟨m.id, m.content, (m.similarity).getD ⟨0, 1⟩⟩ : ConflictMemory)) []).isEmpty = true
      from rfl), hinsert]
    rfl

theorem flatMap_toLeBytes_zero :
    ∀ n : Nat, (List.replicate n (0 : Nat)).flatMap toLeBytes = List.replicate (4 * n) 0
  | 0 => rfl
  | n + 1 => by
    rw [List.replicate_succ, List.flatMap_cons, flatMap_toLeBytes_zero n,
      show 4 * (n + 1) = 4 + 4 * n by ring, List.replicate_add]
    rfl

theorem chunksToWords_replicate_zero :
    chunksToWords (List.replicate 1536 (0 : Nat)) = List.replicate 384 0 := by
  rw [show (1536 : Nat) = 4 * 384 from rfl, ← flatMap_toLeBytes_zero 384]
  apply chunksToWords_flatMap
  intro x hx
  rw [List.eq_of_mem_replicate hx]
  decide

theorem f32FromBits_zero : f32FromBits 0 = F32.finite 0 := by
  unfold f32FromBits
  norm_num

theorem normSq_replicate_finite_zero (n : Nat) :
    normSq (List.replicate n (F32.finite 0)) = 0 := by
  unfold normSq
  rw [List.map_replicate]
  rw [show (F32.finite 0).toQ ^ 2 = 0 by norm_num [F32.toQ], List.sum_replicate, smul_zero]

theorem c5_conflict_gate_witness :
    ∃ conflicts,
      (MemoryStore.mk
        ⟨[⟨1, "m1", "p", "text", List.replicate 1536 0, none, "t", "t"⟩],
          [⟨1, "text", "p"⟩], true, 2⟩
        (fun _ => List.replicate 384 0) 0).add_with_conflict "m2" "t2" "p" "other" none false =
        .ok (.Conflicts "other" conflicts,
          MemoryStore.mk
            ⟨[⟨1, "m1", "p", "text", List.replicate 1536 0, none, "t", "t"⟩],
              [⟨1, "text", "p"⟩], true, 2⟩
            (fun _ => List.replicate 384 0) 0) ∧
      conflicts ≠ [] := by
  have hmapq : (List.replicate 384 (0 : Nat)).map f32FromBits =
      List.replicate 384 (F32.finite 0) := by
    rw [List.map_replicate, f32FromBits_zero]
  have hq : validQuery (List.replicate 384 0) := by
    refine ⟨by rw [List.length_replicate]; rfl, ?_⟩
    rw [hmapq]
    intro x hx
    rw [List.eq_of_mem_replicate hx]
    decide
  have hrow : MemRow.healthy ⟨1, "m1", "p", "text", List.replicate 1536 0, none, "t", "t"⟩ := by
    refine ⟨by rw [List.length_replicate]; rfl, ?_⟩
    show ∀ x ∈ (chunksToWords (List.replicate 1536 0)).map f32FromBits, _
    rw [chunksToWords_replicate_zero, hmapq]
    intro x hx
    rw [List.eq_of_mem_replicate hx]
    decide
  have hscore : rowScore (List.replicate 384 0)
      ⟨1, "m1", "p", "text", List.replicate 1536 0, none, "t", "t"⟩ = ⟨0, 1⟩ := by
    unfold rowScore
    rw [if_pos (Or.inl (by rw [hmapq]; exact normSq_replicate_finite_zero 384))]
  have hge : (rowScore (List.replicate 384 0)
      ⟨1, "m1", "p", "text", List.replicate 1536 0, none, "t", "t"⟩).geB 0 = true := by
    rw [hscore]
    norm_num [SimScore.geB, SimScore.leB]
  have h := c5_conflict_gate
    (MemoryStore.mk
      ⟨[⟨1, "m1", "p", "text", List.replicate 1536 0, none, "t", "t"⟩],
        [⟨1, "text", "p"⟩], true, 2⟩
      (fun _ => List.replicate 384 0) 0) "m2" "t2" "p" "other" none rfl hq
    (by
      intro r hr
      rw [List.mem_singleton.mp hr]
      decide)
    (by
      intro r hr
      have hr2 : r ∈ [(⟨1, "m1", "p", "text", List.replicate 1536 0, none, "t", "t"⟩ : MemRow)] :=
        hr
      rw [List.mem_singleton.mp hr2]
      exact hrow)
    (by
      show ([(⟨1, "m1", "p", "text", List.replicate 1536 0, none, "t", "t"⟩ : MemRow)]).length ≤
        MAX_SEARCH_LIMIT
      decide)
  obtain ⟨conflicts, hc, hne, -, -⟩ := h.2.1
    ⟨⟨1, "m1", "p", "text", List.replicate 1536 0, none, "t", "t"⟩,
      show _ ∈ [(⟨1, "m1", "p", "text", List.replicate 1536 0, none, "t", "t"⟩ : MemRow)] from
        List.mem_singleton.mpr rfl, hge⟩
  exact ⟨conflicts, hc, hne⟩

/-! ## Reciprocal rank fusion (claim C1) -/

theorem contribFrom_absent (k : ℚ) (id : String) :
    ∀ (l : List Memory) (n : Nat), (∀ m ∈ l, m.id ≠ id) → contribFrom k n l id = 0
  | [], _, _ => rfl
  | m :: t, n, h => by
    rw [contribFrom, if_neg (by simpa using h m (List.mem_cons_self m t)),
      contribFrom_absent k id t (n + 1) (fun m2 hm2 => h m2 (List.mem_cons_of_mem m hm2))]
    norm_num

theorem scoreOf_nil (id : String) : scoreOf [] id = 0 := rfl

theorem scoreOf_cons_pos {e : String × Memory × ℚ} {acc : List (String × Memory × ℚ)}
    {id : String} (h : (e.1 == id) = true) : scoreOf (e :: acc) id = e.2.2 := by
  unfold scoreOf
  rw [@List.find?_cons_of_pos _ (fun e => e.1 == id) e acc h]

theorem scoreOf_cons_neg {e : String × Memory × ℚ} {acc : List (String × Memory × ℚ)}
    {id : String} (h : ¬(e.1 == id) = true) : scoreOf (e :: acc) id = scoreOf acc id := by
  unfold scoreOf
  rw [@List.find?_cons_of_neg _ (fun e => e.1 == id) e acc h]

theorem contribFrom_rank (k : ℚ) (id : String) :
    ∀ (l : List Memory) (n i : Nat) (hi : i < l.length),
      (l.map Memory.id).Nodup → (l.get ⟨i, hi⟩).id = id →
      contribFrom k n l id = 1 / (k + ((n + i + 1 : Nat) : ℚ))
  | [], _, i, hi, _, _ => absurd hi (by simp)
  | m :: t, n, 0, hi, hnd, hid => by
    have hm : m.id = id := hid
    rw [contribFrom, if_pos (by simpa using hm), contribFrom_absent k id t (n + 1) ?_, add_zero,
      Nat.add_zero]
    intro m2 hm2 hcon
    have hmem : m.id ∈ t.map Memory.id := by
      rw [hm, ← hcon]
      exact List.mem_map_of_mem Memory.id hm2
    exact (List.nodup_cons.mp (by simpa using hnd)).1 hmem
  | m :: t, n, j + 1, hi, hnd, hid => by
    have hj : j < t.length := by simpa using Nat.lt_of_succ_lt_succ hi
    have hidt : (t.get ⟨j, hj⟩).id = id := hid
    have hmemt : id ∈ t.map Memory.id := by
      rw [← hidt]
      exact List.mem_map_of_mem Memory.id (List.get_mem t j hj)
    have hhead : ¬(m.id == id) = true := by
      intro hcon
      have hm : m.id = id := by simpa using hcon
      exact (List.nodup_cons.mp (by simpa using hnd)).1 (hm ▸ hmemt)
    rw [contribFrom, if_neg hhead,
      contribFrom_rank k id t (n + 1) j hj (List.nodup_cons.mp (by simpa using hnd)).2 hidt]
    rw [show n + 1 + j + 1 = n + (j + 1) + 1 by omega]
    norm_num

theorem scoreOf_update_eq (mid : String) (s : ℚ) :
    ∀ acc : List (String × Memory × ℚ), (acc.find? (fun e => e.1 == mid)).isSome →
      scoreOf (acc.map (fun e => if e.1 == mid then (e.1, e.2.1, e.2.2 + s) else e)) mid =
        scoreOf acc mid + s
  | [], h => absurd h (by simp)
  | e :: t, h => by
    by_cases he : (e.1 == mid) = true
    · rw [List.map_cons, if_pos he,
        scoreOf_cons_pos (show (((e.1, e.2.1, e.2.2 + s) : String × Memory × ℚ).1 == mid) = true
          from he),
        scoreOf_cons_pos he]
    · rw [List.map_cons, if_neg he, scoreOf_cons_neg he, scoreOf_cons_neg he]
      apply scoreOf_update_eq mid s t
      rwa [@List.find?_cons_of_neg _ (fun e => e.1 == mid) e t he] at h

theorem scoreOf_update_ne (mid : String) (s : ℚ) (id : String) (hne : id ≠ mid) :
    ∀ acc : List (String × Memory × ℚ),
      scoreOf (acc.map (fun e => if e.1 == mid then (e.1, e.2.1, e.2.2 + s) else e)) id =
        scoreOf acc id
  | [] => rfl
  | e :: t => by
    by_cases he : (e.1 == mid) = true
    · have hkey : ¬(e.1 == id) = true := by
        simp only [beq_iff_eq] at he ⊢
        rw [he]
        exact fun hc => hne hc.symm
      rw [List.map_cons, if_pos he,
        scoreOf_cons_neg (show ¬(((e.1, e.2.1, e.2.2 + s) : String × Memory × ℚ).1 == id) = true
          from hkey),
        scoreOf_cons_neg hkey]
      exact scoreOf_update_ne mid s id hne t
    · by_cases hkey : (e.1 == id) = true
      · rw [List.map_cons, if_neg he, scoreOf_cons_pos hkey, scoreOf_cons_pos hkey]
      · rw [List.map_cons, if_neg he, scoreOf_cons_neg hkey, scoreOf_cons_neg hkey]
        exact scoreOf_update_ne mid s id hne t

theorem scoreOf_absent {acc : List (String × Memory × ℚ)} {id : String}
    (h : acc.find? (fun e => e.1 == id) = none) : scoreOf acc id = 0 := by
  unfold scoreOf
  rw [h]

theorem scoreOf_append_pos {acc : List (String × Memory × ℚ)} {ent : String × Memory × ℚ}
    {id : String} (hnone : acc.find? (fun e => e.1 == id) = none)
    (hk : (ent.1 == id) = true) : scoreOf (acc ++ [ent]) id = ent.2.2 := by
  unfold scoreOf
  rw [List.find?_append, hnone, List.find?_singleton, if_pos hk]
  rfl

theorem scoreOf_append_neg {acc : List (String × Memory × ℚ)} {ent : String × Memory × ℚ}
    {id : String} (hk : ¬(ent.1 == id) = true) :
    scoreOf (acc ++ [ent]) id = scoreOf acc id := by
  unfold scoreOf
  rw [List.find?_append, List.find?_singleton, if_neg hk, Option.or_none]

theorem scoreOf_rrfStep (k : ℚ) (acc : List (String × Memory × ℚ)) (r : Nat) (m : Memory)
    (id : String) :
    scoreOf (rrfStep k acc r m) id =
      scoreOf acc id + (if m.id == id then 1 / (k + ((r + 1 : Nat) : ℚ)) else 0) := by
  unfold rrfStep
  by_cases hp : (acc.find? (fun e => e.1 == m.id)).isSome
  · rw [if_pos hp]
    by_cases hid : (m.id == id) = true
    · have heq : id = m.id := (by simpa using hid : m.id = id).symm
      subst heq
      rw [if_pos hid, scoreOf_update_eq m.id _ acc hp]
    · have hne : id ≠ m.id := fun hc => hid (by simpa using hc.symm)
      rw [if_neg hid, add_zero]
      exact scoreOf_update_ne m.id _ id hne acc
  · rw [if_neg hp]
    have hnone : acc.find? (fun e => e.1 == m.id) = none :=
      Option.not_isSome_iff_eq_none.mp hp
    by_cases hid : (m.id == id) = true
    · have heq : id = m.id := (by simpa using hid : m.id = id).symm
      subst heq
      rw [if_pos hid, scoreOf_absent hnone, zero_add, scoreOf_append_pos hnone (by simp)]
    · have hne : id ≠ m.id := fun hc => hid (by simpa using hc.symm)
      rw [if_neg hid, add_zero, scoreOf_append_neg (by simpa using fun hc => hne hc.symm)]

theorem keys_rrfStep (k : ℚ) (acc : List (String × Memory × ℚ)) (r : Nat) (m : Memory) :
    (rrfStep k acc r m).map Prod.fst =
      if (acc.find? (fun e => e.1 == m.id)).isSome then acc.map Prod.fst
      else acc.map Prod.fst ++ [m.id] := by
  unfold rrfStep
  by_cases hp : (acc.find? (fun e => e.1 == m.id)).isSome
  · rw [if_pos hp, if_pos hp, List.map_map]
    apply List.map_congr_left
    intro e _
    by_cases he : (e.1 == m.id) = true
    · rw [Function.comp_apply, if_pos he]
    · rw [Function.comp_apply, if_neg he]
  · rw [if_neg hp, if_neg hp, List.map_append]
    rfl

theorem mem_keys_rrfStep {k : ℚ} {acc : List (String × Memory × ℚ)} {r : Nat} {m : Memory}
    {id : String} :
    id ∈ (rrfStep k acc r m).map Prod.fst ↔ id ∈ acc.map Prod.fst ∨ id = m.id := by
  rw [keys_rrfStep]
  by_cases hp : (acc.find? (fun e => e.1 == m.id)).isSome
  · rw [if_pos hp]
    constructor
    · exact Or.inl
    · rintro (h | rfl)
      · exact h
      · obtain ⟨e, he, hkey⟩ := List.find?_isSome.mp hp
        exact List.mem_map.mpr ⟨e, he, by simpa using hkey⟩
  · rw [if_neg hp, List.mem_append, List.mem_singleton]

theorem nodupKeys_rrfStep {k : ℚ} {acc : List (String × Memory × ℚ)} {r : Nat} {m : Memory}
    (h : (acc.map Prod.fst).Nodup) : ((rrfStep k acc r m).map Prod.fst).Nodup := by
  rw [keys_rrfStep]
  by_cases hp : (acc.find? (fun e => e.1 == m.id)).isSome
  · rwa [if_pos hp]
  · rw [if_neg hp, List.nodup_append]
    refine ⟨h, List.nodup_singleton _, ?_⟩
    intro x hx hx2
    rw [List.mem_singleton] at hx2
    subst hx2
    obtain ⟨e, he, hkey⟩ := List.mem_map.mp hx
    exact hp (List.find?_isSome.mpr ⟨e, he, by simp [hkey]⟩)

theorem wfMem_rrfStep {k : ℚ} {acc : List (String × Memory × ℚ)} {r : Nat} {m : Memory}
    (h : ∀ e ∈ acc, (e : String × Memory × ℚ).2.1.id = e.1) :
    ∀ e ∈ rrfStep k acc r m, (e : String × Memory × ℚ).2.1.id = e.1 := by
  unfold rrfStep
  by_cases hp : (acc.find? (fun e => e.1 == m.id)).isSome
  · rw [if_pos hp]
    intro e he
    obtain ⟨e0, he0, rfl⟩ := List.mem_map.mp he
    by_cases hkey : (e0.1 == m.id) = true
    · rw [if_pos hkey]
      exact h e0 he0
    · rw [if_neg hkey]
      exact h e0 he0
  · rw [if_neg hp]
    intro e he
    rcases List.mem_append.mp he with he2 | he2
    · exact h e he2
    · rw [List.mem_singleton] at he2
      subst he2
      rfl

theorem rrfList_enumFrom_scoreOf (k : ℚ) (id : String) :
    ∀ (l : List Memory) (n : Nat) (acc : List (String × Memory × ℚ)),
      scoreOf ((l.enumFrom n).foldl (fun acc p => rrfStep k acc p.1 p.2) acc) id =
        scoreOf acc id + contribFrom k n l id
  | [], n, acc => by
    rw [List.enumFrom_nil, List.foldl_nil, contribFrom]
    norm_num
  | m :: t, n, acc => by
    rw [List.enumFrom_cons, List.foldl_cons,
      rrfList_enumFrom_scoreOf k id t (n + 1) (rrfStep k acc n m),
      scoreOf_rrfStep, contribFrom]
    ring

theorem rrfList_enumFrom_keys (k : ℚ) (id : String) :
    ∀ (l : List Memory) (n : Nat) (acc : List (String × Memory × ℚ)),
      (id ∈ ((l.enumFrom n).foldl (fun acc p => rrfStep k acc p.1 p.2) acc).map Prod.fst ↔
        id ∈ acc.map Prod.fst ∨ id ∈ l.map Memory.id)
  | [], n, acc => by
    rw [List.enumFrom_nil, List.foldl_nil]
    simp
  | m :: t, n, acc => by
    rw [List.enumFrom_cons, List.foldl_cons, rrfList_enumFrom_keys k id t (n + 1) _,
      mem_keys_rrfStep, List.map_cons, List.mem_cons]
    tauto

theorem rrfList_enumFrom_nodup (k : ℚ) :
    ∀ (l : List Memory) (n : Nat) (acc : List (String × Memory × ℚ)),
      (acc.map Prod.fst).Nodup →
      ((((l.enumFrom n).foldl (fun acc p => rrfStep k acc p.1 p.2) acc)).map Prod.fst).Nodup
  | [], n, acc, h => by
    rw [List.enumFrom_nil, List.foldl_nil]
    exact h
  | m :: t, n, acc, h => by
    rw [List.enumFrom_cons, List.foldl_cons]
    exact rrfList_enumFrom_nodup k t (n + 1) _ (nodupKeys_rrfStep h)

theorem rrfList_enumFrom_wfMem (k : ℚ) :
    ∀ (l : List Memory) (n : Nat) (acc : List (String × Memory × ℚ)),
      (∀ e ∈ acc, (e : String × Memory × ℚ).2.1.id = e.1) →
      ∀ e ∈ (l.enumFrom n).foldl (fun acc p => rrfStep k acc p.1 p.2) acc,
        (e : String × Memory × ℚ).2.1.id = e.1
  | [], n, acc, h => by
    rw [List.enumFrom_nil, List.foldl_nil]
    exact h
  | m :: t, n, acc, h => by
    rw [List.enumFrom_cons, List.foldl_cons]
    exact rrfList_enumFrom_wfMem k t (n + 1) _ (wfMem_rrfStep h)

theorem rrfList_eq_enumFrom (k : ℚ) (acc : List (String × Memory × ℚ)) (l : List Memory) :
    rrfList k acc l = (l.enumFrom 0).foldl (fun acc p => rrfStep k acc p.1 p.2) acc := rfl

theorem foldl_rrfList_scoreOf (k : ℚ) (id : String) :
    ∀ (lists : List (List Memory)) (acc : List (String × Memory × ℚ)),
      scoreOf (lists.foldl (fun acc l => rrfList k acc l) acc) id =
        scoreOf acc id + rrfSpecScore k lists id
  | [], acc => by
    rw [List.foldl_nil]
    unfold rrfSpecScore
    norm_num
  | l :: ls, acc => by
    rw [List.foldl_cons, foldl_rrfList_scoreOf k id ls _]
    unfold rrfSpecScore
    rw [List.map_cons, List.sum_cons, rrfList_eq_enumFrom, rrfList_enumFrom_scoreOf]
    ring

theorem foldl_rrfList_keys (k : ℚ) (id : String) :
    ∀ (lists : List (List Memory)) (acc : List (String × Memory × ℚ)),
      (id ∈ (lists.foldl (fun acc l => rrfList k acc l) acc).map Prod.fst ↔
        id ∈ acc.map Prod.fst ∨ ∃ l ∈ lists, id ∈ l.map Memory.id)
  | [], acc => by
    rw [List.foldl_nil]
    simp
  | l :: ls, acc => by
    rw [List.foldl_cons, foldl_rrfList_keys k id ls _, rrfList_eq_enumFrom,
      rrfList_enumFrom_keys]
    constructor
    · rintro ((h | h) | ⟨l2, hl2, h⟩)
      · exact Or.inl h
      · exact Or.inr ⟨l, List.mem_cons_self l ls, h⟩
      · exact Or.inr ⟨l2, List.mem_cons_of_mem l hl2, h⟩
    · rintro (h | ⟨l2, hl2, h⟩)
      · exact Or.inl (Or.inl h)
      · rcases List.mem_cons.mp hl2 with rfl | hl3
        · exact Or.inl (Or.inr h)
        · exact Or.inr ⟨l2, hl3, h⟩

theorem foldl_rrfList_nodup (k : ℚ) :
    ∀ (lists : List (List Memory)) (acc : List (String × Memory × ℚ)),
      (acc.map Prod.fst).Nodup →
      ((lists.foldl (fun acc l => rrfList k acc l) acc).map Prod.fst).Nodup
  | [], acc, h => h
  | l :: ls, acc, h => by
    rw [List.foldl_cons]
    exact foldl_rrfList_nodup k ls _ (by
      rw [rrfList_eq_enumFrom]
      exact rrfList_enumFrom_nodup k l 0 acc h)

theorem foldl_rrfList_wfMem (k : ℚ) :
    ∀ (lists : List (List Memory)) (acc : List (String × Memory × ℚ)),
      (∀ e ∈ acc, (e : String × Memory × ℚ).2.1.id = e.1) →
      ∀ e ∈ lists.foldl (fun acc l => rrfList k acc l) acc,
        (e : String × Memory × ℚ).2.1.id = e.1
  | [], acc, h => h
  | l :: ls, acc, h => by
    rw [List.foldl_cons]
    exact foldl_rrfList_wfMem k ls _ (by
      rw [rrfList_eq_enumFrom]
      exact rrfList_enumFrom_wfMem k l 0 acc h)

theorem entry_score_eq_scoreOf :
    ∀ (acc : List (String × Memory × ℚ)), (acc.map Prod.fst).Nodup →
      ∀ e ∈ acc, (e : String × Memory × ℚ).2.2 = scoreOf acc e.1
  | [], _, e, he => absurd he (List.not_mem_nil e)
  | e0 :: t, h, e, he => by
    rcases List.mem_cons.mp he with rfl | het
    · rw [scoreOf_cons_pos (by simp)]
    · have hne : ¬(e0.1 == e.1) = true := by
        intro hc
        have hmem : e0.1 ∈ t.map Prod.fst := by
          rw [show e0.1 = e.1 from by simpa using hc]
          exact List.mem_map_of_mem Prod.fst het
        exact (List.nodup_cons.mp (by simpa using h)).1 hmem
      rw [scoreOf_cons_neg hne]
      exact entry_score_eq_scoreOf t (List.nodup_cons.mp (by simpa using h)).2 e het

theorem rrfLe_iff (e1 e2 : String × Memory × ℚ) :
    rrfLe e1 e2 = true ↔ e2.2.2 < e1.2.2 ∨ (e1.2.2 = e2.2.2 ∧ e1.1 ≤ e2.1) := by
  unfold rrfLe
  simp [Bool.or_eq_true, Bool.and_eq_true, decide_eq_true_eq]

theorem rrfLe_trans (a b c : String × Memory × ℚ)
    (hab : rrfLe a b = true) (hbc : rrfLe b c = true) : rrfLe a c = true := by
  rw [rrfLe_iff] at hab hbc ⊢
  rcases hab with h1 | ⟨h1, h1'⟩ <;> rcases hbc with h2 | ⟨h2, h2'⟩
  · exact Or.inl (lt_trans h2 h1)
  · exact Or.inl (by rw [← h2]; exact h1)
  · exact Or.inl (by rw [h1]; exact h2)
  · exact Or.inr ⟨h1.trans h2, le_trans h1' h2'⟩

theorem rrfLe_total (a b : String × Memory × ℚ) : (rrfLe a b || rrfLe b a) = true := by
  rw [Bool.or_eq_true, rrfLe_iff, rrfLe_iff]
  rcases lt_trichotomy a.2.2 b.2.2 with h | h | h
  · exact Or.inr (Or.inl h)
  · rcases le_total a.1 b.1 with h2 | h2
    · exact Or.inl (Or.inr ⟨h, h2⟩)
    · exact Or.inr (Or.inr ⟨h.symm, h2⟩)
  · exact Or.inl (Or.inl h)

theorem rrf_fusion_core (lists : List (List Memory)) (k : ℚ)
    (fused sorted : List (String × Memory × ℚ)) (out : List Memory)
    (hfused : fused = lists.foldl (fun acc l => rrfList k acc l) [])
    (hsorted : sorted = fused.mergeSort rrfLe)
    (hout : out = sorted.map (fun e => { e.2.1 with similarity := some ⟨e.2.2, 1⟩ })) :
    (∀ m ∈ out, m.similarity = some ⟨rrfSpecScore k lists m.id, 1⟩) ∧
      (out.map Memory.id).Nodup ∧
      (∀ id, id ∈ out.map Memory.id ↔ ∃ l ∈ lists, id ∈ l.map Memory.id) ∧
      out.Pairwise (fun m1 m2 =>
        rrfSpecScore k lists m2.id < rrfSpecScore k lists m1.id ∨
          (rrfSpecScore k lists m1.id = rrfSpecScore k lists m2.id ∧ m1.id ≤ m2.id)) := by
  have hnodup : (fused.map Prod.fst).Nodup := by
    rw [hfused]
    exact foldl_rrfList_nodup k lists [] (by simp)
  have hwf : ∀ e ∈ fused, (e : String × Memory × ℚ).2.1.id = e.1 := by
    rw [hfused]
    exact foldl_rrfList_wfMem k lists [] (by simp)
  have hsc : ∀ e ∈ fused, (e : String × Memory × ℚ).2.2 = rrfSpecScore k lists e.1 := by
    intro e he
    have h1 := entry_score_eq_scoreOf fused hnodup e he
    rw [h1, hfused, foldl_rrfList_scoreOf, scoreOf_nil, zero_add]
  have hmemkeys : ∀ id, id ∈ fused.map Prod.fst ↔ ∃ l ∈ lists, id ∈ l.map Memory.id := by
    intro id
    rw [hfused, foldl_rrfList_keys]
    simp
  have hperm : List.Perm sorted fused := by
    rw [hsorted]
    exact List.mergeSort_perm fused rrfLe
  have hids : out.map Memory.id = sorted.map Prod.fst := by
    rw [hout, List.map_map]
    apply List.map_congr_left
    intro e he
    exact hwf e (hperm.mem_iff.mp he)
  refine ⟨?_, ?_, ?_, ?_⟩
  · intro m hm
    rw [hout] at hm
    obtain ⟨e, he, rfl⟩ := List.mem_map.mp hm
    have hef : e ∈ fused := hperm.mem_iff.mp he
    have hid : ({ e.2.1 with similarity := some ⟨e.2.2, 1⟩ } : Memory).id = e.1 := hwf e hef
    rw [hid, ← hsc e hef]
  · rw [hids]
    exact (hperm.map Prod.fst).nodup_iff.mpr hnodup
  · intro id
    rw [hids, (hperm.map Prod.fst).mem_iff, hmemkeys]
  · rw [hout, List.pairwise_map]
    have hsorted2 : sorted.Pairwise (fun a b => rrfLe a b = true) := by
      rw [hsorted]
      exact List.sorted_mergeSort rrfLe_trans rrfLe_total fused
    refine List.Pairwise.imp_of_mem ?_ hsorted2
    intro a b ha hb hab
    have haf : a ∈ fused := hperm.mem_iff.mp ha
    have hbf : b ∈ fused := hperm.mem_iff.mp hb
    rw [rrfLe_iff] at hab
    dsimp only
    rw [hwf a haf, hwf b hbf, ← hsc a haf, ← hsc b hbf]
    exact hab

/-- Claim C1: for every list of input result lists and positive parameter
`k`, `rrf_fusion` succeeds; the output consists of exactly the distinct
memories (by id) that appear in at least one input list, each carrying as
similarity the fused score `rrfSpecScore` — the sum over the input lists of
that list's contribution, which for a list with distinct ids is
`1 / (k + rank)` at the memory's 1-based rank there and 0 for lists the
memory is absent from — and the output is sorted descending by fused score
with ties broken by id ascending. -/
theorem c1_rrf_fusion_spec (result_lists : List (List Memory)) (cfg : RrfConfig)
    (_hk : 0 < cfg.k) :
    ∃ out, rrf_fusion result_lists (some cfg) = .ok out ∧
      (∀ m ∈ out, m.similarity = some ⟨rrfSpecScore cfg.k result_lists m.id, 1⟩) ∧
      (out.map Memory.id).Nodup ∧
      (∀ id, id ∈ out.map Memory.id ↔ ∃ l ∈ result_lists, id ∈ l.map Memory.id) ∧
      out.Pairwise (fun m1 m2 =>
        rrfSpecScore cfg.k result_lists m2.id < rrfSpecScore cfg.k result_lists m1.id ∨
          (rrfSpecScore cfg.k result_lists m1.id = rrfSpecScore cfg.k result_lists m2.id ∧
            m1.id ≤ m2.id)) ∧
      (∀ l ∈ result_lists, (l.map Memory.id).Nodup →
        ∀ (i : Nat) (hi : i < l.length),
          contribFrom cfg.k 0 l (l.get ⟨i, hi⟩).id = 1 / (cfg.k + ((i + 1 : Nat) : ℚ))) ∧
      (∀ l ∈ result_lists, ∀ id, (∀ m ∈ l, m.id ≠ id) → contribFrom cfg.k 0 l id = 0) := by
  rcases result_lists with _ | ⟨l0, ls⟩
  · exact ⟨[], rfl, by simp, by simp, by simp, by simp, by simp, by simp⟩
  · obtain ⟨h1, h2, h3, h4⟩ := rrf_fusion_core (l0 :: ls) cfg.k _ _ _ rfl rfl rfl
    refine ⟨_, rfl, h1, h2, h3, h4, ?_, ?_⟩
    · intro l _ hnd i hi
      rw [contribFrom_rank cfg.k (l.get ⟨i, hi⟩).id l 0 i hi hnd rfl, Nat.zero_add]
    · intro l _ id h
      exact contribFrom_absent cfg.k id l 0 h

/-- Witness for C1: with k = 25 and a memory at rank 1 in each of three
input lists, the fused score is exactly 3 * (1 / 26). -/
theorem c1_rrf_fusion_witness :
    (0 : ℚ) < 25 ∧
    (∃ out, rrf_fusion [[memA], [memA], [memA]] (some ⟨25⟩) = .ok out ∧
      (∀ m ∈ out, m.similarity = some ⟨rrfSpecScore 25 [[memA], [memA], [memA]] m.id, 1⟩) ∧
      (out.map Memory.id).Nodup ∧
      (∀ id, id ∈ out.map Memory.id ↔ ∃ l ∈ [[memA], [memA], [memA]], id ∈ l.map Memory.id) ∧
      out.Pairwise (fun m1 m2 =>
        rrfSpecScore 25 [[memA], [memA], [memA]] m2.id <
            rrfSpecScore 25 [[memA], [memA], [memA]] m1.id ∨
          (rrfSpecScore 25 [[memA], [memA], [memA]] m1.id =
              rrfSpecScore 25 [[memA], [memA], [memA]] m2.id ∧ m1.id ≤ m2.id)) ∧
      (∀ l ∈ [[memA], [memA], [memA]], (l.map Memory.id).Nodup →
        ∀ (i : Nat) (hi : i < l.length),
          contribFrom 25 0 l (l.get ⟨i, hi⟩).id = 1 / (25 + ((i + 1 : Nat) : ℚ))) ∧
      (∀ l ∈ [[memA], [memA], [memA]], ∀ id, (∀ m ∈ l, m.id ≠ id) →
        contribFrom 25 0 l id = 0)) ∧
    rrfSpecScore (25 : ℚ) [[memA], [memA], [memA]] "a" = 3 * (1 / 26) :=
  ⟨by norm_num, c1_rrf_fusion_spec [[memA], [memA], [memA]] ⟨25⟩ (by norm_num),
    by norm_num [rrfSpecScore, contribFrom, memA]⟩

/-! ## RRF totality (claim C10) -/

/-- Claim C10: `rrf_fusion` is total — for every input it returns `Ok`; the
error case of its result type is unreachable. -/
theorem c10_rrf_fusion_total (result_lists : List (List Memory))
    (config : Option RrfConfig) :
    ∃ out, rrf_fusion result_lists config = .ok out := by
  unfold rrf_fusion
  split
  · exact ⟨_, rfl⟩
  · exact ⟨_, rfl⟩

end Vipune
